import Mathlib

/-!
Shallow embedding of the core of the `evolution_of_species` repository:
`perthame_edp/model/integral_functional.py` (memoized integral functionals `F` and `G`)
and `perthame_edp/model/solver.py` (the solvers `SolverU`, `SolverRMethod1`,
`SolverRMethod2` and the driver `solve_perthame`).

Numpy arrays are modelled as lists of rationals (`Vec`, `Mat`), boolean masks as
lists of lists of booleans, and Python exceptions as `Except PyErr`.  The pieces of
the repository that are referenced but whose files are not part of the sources here
(`perthame_edp/model/discrete_function.py`, `perthame_edp/utils/validators.py`, and
the external quadrature `scipy.integrate.simpson`) are modelled from the spec and
carry a doc comment saying so.  Evaluation of a functional additionally returns the
number of quadrature invocations it performed, the call counter the spec itself
proposes as the observable for memoization.
-/

namespace Perthame

abbrev Vec := List ℚ

abbrev Mat := List (List ℚ)

abbrev BoolMat := List (List Bool)

/-- Elementwise product, numpy `*` on equal-length arrays. -/
def vMul (a b : Vec) : Vec := List.zipWith (fun p q => p * q) a b

/-- Elementwise sum, numpy `+` on equal-length arrays. -/
def vAdd (a b : Vec) : Vec := List.zipWith (fun p q => p + q) a b

/-- Elementwise quotient, numpy `/` on equal-length arrays. -/
def vDiv (a b : Vec) : Vec := List.zipWith (fun p q => p / q) a b

/-- Elementwise negation, numpy unary `-`. -/
def vNeg (a : Vec) : Vec := a.map (fun p => -p)

/-- Scalar times array, numpy broadcasting of `c * a`. -/
def vSMul (c : ℚ) (a : Vec) : Vec := a.map (fun p => c * p)

/-- Scalar minus array, numpy broadcasting of `1 - a` and friends. -/
def vScalarSub (c : ℚ) (a : Vec) : Vec := a.map (fun p => c - p)

/-- Entry `m[i, j]` of a matrix, with default `0` out of range. -/
def entry (m : Mat) (i j : ℕ) : ℚ := (m.getD i []).getD j 0

/-- Entry `m[i, j]` of a boolean mask, with default `false` out of range. -/
def maskAt (m : BoolMat) (i j : ℕ) : Bool := (m.getD i []).getD j false

/-- Assignment `m[i, j] = v` on a matrix. -/
def setEntryM (m : Mat) (i j : ℕ) (v : ℚ) : Mat := m.set i ((m.getD i []).set j v)

/-- Assignment `m[i, j] = b` on a boolean mask. -/
def setMask (m : BoolMat) (i j : ℕ) (b : Bool) : BoolMat :=
  m.set i ((m.getD i []).set j b)

/-- Modelled from the spec: `AbstractDiscreteFunction._update_mask_row(n, b)` from the
missing `perthame_edp/model/discrete_function.py` broadcasts the boolean `b` over the
whole mask row `n`. -/
def updateMaskRow (m : BoolMat) (n : ℕ) (b : Bool) : BoolMat :=
  m.set n (List.replicate (m.getD n []).length b)

/-- Modelled from the spec: `AbstractDiscreteFunction._is_row_calculated(n)` from the
missing `perthame_edp/model/discrete_function.py` reports whether every mask entry of
row `n` is `True`, i.e. whether the row is already marked computed. -/
def isRowCalculated (m : BoolMat) (n : ℕ) : Bool := (m.getD n []).all (fun b => b)

/-- Modelled from the spec: `AbstractDiscreteFunction._create_mask()` from the missing
`perthame_edp/model/discrete_function.py` creates an all-`False` validity bitmap of
the given shape. -/
def zerosMask (rows cols : ℕ) : BoolMat := List.replicate rows (List.replicate cols false)

/-- Matrix of zeros, numpy `np.zeros((rows, cols))`. -/
def zerosMat (rows cols : ℕ) : Mat := List.replicate rows (List.replicate cols 0)

/-- Modelled from the spec: the time-indexed field buffer built by the missing
`InitialDiscreteFunctionValidator` of `perthame_edp/utils/validators.py`: `T + 1` rows,
row `0` holding the initial condition and all later rows zero-filled. -/
def initField (row0 : Vec) (cols T : ℕ) : Mat := row0 :: List.replicate T (List.replicate cols 0)

/-- Column `k` of a matrix, numpy `K[:, k]`. -/
def colOf (m : Mat) (k : ℕ) : Vec := m.map (fun row => row.getD k 0)

/-- Errors surfaced by the embedded Python code. -/
inductive PyErr
  | shapeMismatch
  | typeError
deriving Repr, DecidableEq

instance {ε α : Type} [DecidableEq ε] [DecidableEq α] : DecidableEq (Except ε α) :=
  fun a b =>
  match a, b with
  | .ok x, .ok y => if h : x = y then isTrue (by rw [h]) else isFalse (by simp [h])
  | .error e, .error e2 =>
    if h : e = e2 then isTrue (by rw [h]) else isFalse (by simp [h])
  | .ok _, .error _ => isFalse (by intro hc; cases hc)
  | .error _, .ok _ => isFalse (by intro hc; cases hc)

/-- Modelled from the spec: `validate_nth_row(row, expected)` from the missing
`perthame_edp/utils/validators.py` fails with a ShapeMismatch error iff the length of
`row` disagrees with the length of the expected row. -/
def validate_nth_row (row expected : Vec) : Except PyErr Unit :=
  if row.length = expected.length then .ok () else .error .shapeMismatch

/-- Modelled from the spec: the external quadrature `scipy.integrate.simpson(ys, x=xs)`
is composite Simpson integration of the sampled values `ys` over the ordered mesh
`xs`, two intervals at a time, each pair integrated by the quadratic-interpolant
(Simpson) rule for possibly unequal spacings.  The first argument is a fuel bound
(instantiated with the length of `ys`) making the recursion structural. -/
def simpsonAux : ℕ → Vec → Vec → ℚ
  | 0, _, _ => 0
  | fuel + 1, y0 :: y1 :: y2 :: ys, x0 :: x1 :: x2 :: xs =>
    let h0 := x1 - x0
    let h1 := x2 - x1
    (h0 + h1) / 6 *
        ((2 - h1 / h0) * y0 + (h0 + h1) ^ 2 / (h0 * h1) * y1 + (2 - h0 / h1) * y2) +
      simpsonAux fuel (y2 :: ys) (x2 :: xs)
  | _ + 1, _, _ => 0

/-- Modelled from the spec: composite Simpson quadrature of `ys` over the mesh `xs`. -/
def simpson (ys xs : Vec) : ℚ := simpsonAux ys.length ys xs

/-- State of `FunctionalF` (`integral_functional.py`, lines 40-90): kernel `K`, the
private copy `R` of the resource field, the cache `matrix`, its validity `mask`, the
`y` mesh it integrates over, and the mesh size `N`. -/
structure FunctionalF where
  K : Mat
  R : Mat
  matrix : Mat
  mask : BoolMat
  y : Vec
  N : ℕ
deriving Repr, DecidableEq

/-- `FunctionalF.__init__`: the cache is a `(T+1) × (N+2)` zero matrix with an
all-`False` mask; the `R` buffer holds `R_0` in row `0`. -/
def FunctionalF.construct (K : Mat) (R_0 : Vec) (y : Vec) (N M T : ℕ) : FunctionalF :=
  { K := K, R := initField R_0 (M + 2) T, matrix := zerosMat (T + 1) (N + 2),
    mask := zerosMask (T + 1) (N + 2), y := y, N := N }

/-- `FunctionalF.actualize_row` (lines 77-81): validate the row against the stored
`R[n]`, copy it into `R[n]`, and clear mask row `n`. -/
def FunctionalF.actualize_row (f : FunctionalF) (row : Vec) (n : ℕ) :
    Except PyErr FunctionalF := do
  let _ ← validate_nth_row row (f.R.getD n [])
  .ok { f with R := f.R.set n row, mask := updateMaskRow f.mask n false }

/-- `FunctionalF.__call__` (lines 83-90): if the mask entry is `False`, integrate
`K[j] * R[n]` over the `y` mesh, store the value, set the mask entry and return the
value; otherwise return the cached `matrix[n, j]`.  The third component counts the
quadrature invocations performed (0 or 1). -/
def FunctionalF.call (f : FunctionalF) (n j : ℕ) : ℚ × FunctionalF × ℕ :=
  if maskAt f.mask n j = false then
    let array_to_integrate := vMul (f.K.getD j []) (f.R.getD n [])
    let integral_value := simpson array_to_integrate f.y
    (integral_value,
      { f with matrix := setEntryM f.matrix n j integral_value,
               mask := setMask f.mask n j true }, 1)
  else (entry f.matrix n j, f, 0)

/-- Evaluation of `FunctionalF` at row `n` and each column of `js` in order, threading
the cache state and summing the quadrature counters. -/
def FunctionalF.mapCalls (f : FunctionalF) (n : ℕ) : List ℕ → Vec × FunctionalF × ℕ
  | [] => ([], f, 0)
  | j :: js =>
    let r := f.call n j
    let rest := r.2.1.mapCalls n js
    (r.1 :: rest.1, rest.2.1, r.2.2 + rest.2.2)

/-- Modelled from the spec: reading `F[n]` through `AbstractDiscreteFunction.__getitem__`
of the missing `perthame_edp/model/discrete_function.py` yields the vector of
functional values at time row `n`, each entry evaluated lazily through the memoized
`__call__`. -/
def FunctionalF.getRow (f : FunctionalF) (n : ℕ) : Vec × FunctionalF × ℕ :=
  f.mapCalls n (List.range (f.N + 2))

/-- State of `FunctionalG` (`integral_functional.py`, lines 93-148): growth rate `r`,
kernel `K`, the private copy `u` of the population field, the cache `matrix`, its
validity `mask`, the `x` mesh it integrates over, and the mesh size `M`. -/
structure FunctionalG where
  r : Vec
  K : Mat
  u : Mat
  matrix : Mat
  mask : BoolMat
  x : Vec
  M : ℕ
deriving Repr, DecidableEq

/-- `FunctionalG.__init__`: the cache is a `(T+1) × (M+2)` zero matrix with an
all-`False` mask; the `u` buffer holds `u_0` in row `0`. -/
def FunctionalG.construct (r : Vec) (K : Mat) (u_0 : Vec) (x : Vec) (N M T : ℕ) :
    FunctionalG :=
  { r := r, K := K, u := initField u_0 (N + 2) T, matrix := zerosMat (T + 1) (M + 2),
    mask := zerosMask (T + 1) (M + 2), x := x, M := M }

/-- `FunctionalG.actualize_row` (lines 135-139): validate the row against the stored
`u[n]`, copy it into `u[n]`, and clear mask row `n`. -/
def FunctionalG.actualize_row (g : FunctionalG) (row : Vec) (n : ℕ) :
    Except PyErr FunctionalG := do
  let _ ← validate_nth_row row (g.u.getD n [])
  .ok { g with u := g.u.set n row, mask := updateMaskRow g.mask n false }

/-- `FunctionalG.__call__` (lines 141-148): if the mask entry is `False`, integrate
`r * K[:, k] * u[n]` over the `x` mesh, store the value, set the mask entry and return
the value; otherwise return the cached `matrix[n, k]`. -/
def FunctionalG.call (g : FunctionalG) (n k : ℕ) : ℚ × FunctionalG × ℕ :=
  if maskAt g.mask n k = false then
    let array_to_integrate := vMul (vMul g.r (colOf g.K k)) (g.u.getD n [])
    let integral_value := simpson array_to_integrate g.x
    (integral_value,
      { g with matrix := setEntryM g.matrix n k integral_value,
               mask := setMask g.mask n k true }, 1)
  else (entry g.matrix n k, g, 0)

/-- Evaluation of `FunctionalG` at row `n` and each column of `ks` in order, threading
the cache state and summing the quadrature counters. -/
def FunctionalG.mapCalls (g : FunctionalG) (n : ℕ) : List ℕ → Vec × FunctionalG × ℕ
  | [] => ([], g, 0)
  | k :: ks =>
    let r := g.call n k
    let rest := r.2.1.mapCalls n ks
    (r.1 :: rest.1, rest.2.1, r.2.2 + rest.2.2)

/-- Modelled from the spec: reading `G[n]` through `AbstractDiscreteFunction.__getitem__`
of the missing `perthame_edp/model/discrete_function.py` yields the vector of
functional values at time row `n`, each entry evaluated lazily through the memoized
`__call__`. -/
def FunctionalG.getRow (g : FunctionalG) (n : ℕ) : Vec × FunctionalG × ℕ :=
  g.mapCalls n (List.range (g.M + 2))

/-- Square matrices built by numpy calls in `SolverU._create_transition_matrix` are
modelled as total functions on indices, zero away from the explicitly written band. -/
abbrev FMat := ℕ → ℕ → ℚ

/-- Superdiagonal matrix, numpy `np.diag(v, 1)`: entry `(i, i+1)` is `v[i]`. -/
def npDiagSup (v : Vec) : FMat := fun i j => if j = i + 1 then v.getD i 0 else 0

/-- Subdiagonal matrix, numpy `np.diag(v, -1)`: entry `(j+1, j)` is `v[j]`. -/
def npDiagSub (v : Vec) : FMat := fun i j => if i = j + 1 then v.getD j 0 else 0

/-- Main-diagonal matrix, numpy `np.diag(v, 0)`. -/
def npDiagMain (v : Vec) : FMat := fun i j => if i = j then v.getD i 0 else 0

/-- Single-entry assignment `m[a, b] = v` on a function matrix. -/
def fset (m : FMat) (a b : ℕ) (v : ℚ) : FMat :=
  fun i j => if i = a ∧ j = b then v else m i j

/-- Entrywise sum of two function matrices, numpy `+`. -/
def fadd (A B : FMat) : FMat := fun i j => A i j + B i j

/-- Matrix-vector product `A.dot(v)` of an `len × len` matrix with a vector. -/
def dot (A : FMat) (v : Vec) (len : ℕ) : Vec :=
  (List.range len).map (fun i => ((List.range len).map (fun j => A i j * v.getD j 0)).sum)

/-- State of `SolverU` (`solver.py`, classes `AbstractSolver`, `AbstractSolverU`,
`SolverU`): coefficients `m_1`, `eps`, `r`, kernel `K`, the field buffers `u` (aliased
by the class as `_matrix`) and `R`, the owned functional `F`, the prediction `mask`,
the `current_step` counter, and mesh metadata `dt`, `h1`, `N`. -/
structure SolverU where
  m_1 : Vec
  eps : ℚ
  r : Vec
  K : Mat
  u : Mat
  R : Mat
  F : FunctionalF
  mask : BoolMat
  current_step : ℕ
  dt : ℚ
  h1 : ℚ
  N : ℕ
deriving Repr, DecidableEq

/-- `AbstractSolverU.__init__` (lines 183-192): buffers with the initial conditions in
row `0`, a fresh `FunctionalF`, an all-`False` mask whose row `0` is then marked
`True`, and `current_step = 0`. -/
def SolverU.construct (m_1 : Vec) (eps : ℚ) (r : Vec) (K : Mat) (u_0 R_0 : Vec)
    (y : Vec) (dt h1 : ℚ) (N M T : ℕ) : SolverU :=
  { m_1 := m_1, eps := eps, r := r, K := K, u := initField u_0 (N + 2) T,
    R := initField R_0 (M + 2) T, F := FunctionalF.construct K R_0 y N M T,
    mask := updateMaskRow (zerosMask (T + 1) (N + 2)) 0 true, current_step := 0,
    dt := dt, h1 := h1, N := N }

/-- `AbstractSolver._is_next_step` (lines 89-98); defined by the source but never
invoked by it. -/
def SolverU.is_next_step (s : SolverU) (n : ℕ) : Bool := n ≤ s.current_step + 1

/-- `AbstractSolver._update_step` (lines 100-109); defined by the source but never
invoked by it. -/
def SolverU.update_step (s : SolverU) (n : ℕ) : SolverU := { s with current_step := n + 1 }

/-- `AbstractSolverU.actualize_row` (lines 194-201): validate the incoming resource row
against `R[n]`, copy it into `R[n]`, forward it to `F.actualize_row`, and clear the
solver's own mask row `n`. -/
def SolverU.actualize_row (s : SolverU) (row : Vec) (n : ℕ) : Except PyErr SolverU := do
  let _ ← validate_nth_row row (s.R.getD n [])
  let Fnew ← s.F.actualize_row row n
  .ok { s with R := s.R.set n row, F := Fnew, mask := updateMaskRow s.mask n false }

/-- `SolverU._create_transition_matrix` (lines 270-282): off-diagonals of weight
`alpha = eps * dt / h1 ** 2` with the two Neumann corners `(0, 1)` and `(N+1, N)`
replaced by `2 * alpha`, and main diagonal `1 - 2 * alpha + dt * (-m_1 + r * F[n])`.
Reading `F[n]` threads the functional's cache state, which is returned alongside. -/
def SolverU.create_transition_matrix (s : SolverU) (n : ℕ) : FMat × SolverU :=
  let alpha := s.eps * s.dt / s.h1 ^ 2
  let alpha_array := List.replicate (s.N + 1) alpha
  let upper_matrix := fset (npDiagSup alpha_array) 0 1 (2 * alpha)
  let lower_matrix := fset (npDiagSub alpha_array) (s.N + 1) s.N (2 * alpha)
  let fn := s.F.getRow n
  let A_n := vAdd (vNeg s.m_1) (vMul s.r fn.1)
  let beta_array := A_n.map (fun a => 1 - 2 * alpha + s.dt * a)
  let central_matrix := npDiagMain beta_array
  (fadd (fadd lower_matrix central_matrix) upper_matrix, { s with F := fn.2.1 })

/-- `SolverU.actualize_step_np1` (lines 284-288): if row `n+1` is not yet marked
computed, set `u[n+1]` to the transition matrix applied to `u[n]` and mark the row;
in both cases return `u[n+1]`. -/
def SolverU.actualize_step_np1 (s : SolverU) (n : ℕ) : Vec × SolverU :=
  if isRowCalculated s.mask (n + 1) = false then
    let p := s.create_transition_matrix n
    let s1 := p.2
    let newRow := dot p.1 (s1.u.getD n []) (s1.N + 2)
    let s2 := { s1 with u := s1.u.set (n + 1) newRow,
                        mask := updateMaskRow s1.mask (n + 1) true }
    (s2.u.getD (n + 1) [], s2)
  else (s.u.getD (n + 1) [], s)

/-- Shared state of `SolverRMethod1` and `SolverRMethod2` (`solver.py`, classes
`AbstractSolver`, `AbstractSolverR`): coefficients `m_2`, `R_in`, `r`, kernel `K`,
the field buffers `u` and `R` (the latter aliased by the class as `_matrix`), the
owned functional `G`, the prediction `mask`, the `current_step` counter and `dt`. -/
structure SolverR where
  m_2 : Vec
  R_in : Vec
  r : Vec
  K : Mat
  u : Mat
  R : Mat
  G : FunctionalG
  mask : BoolMat
  current_step : ℕ
  dt : ℚ
deriving Repr, DecidableEq

/-- `AbstractSolverR.__init__` (lines 245-253): buffers with the initial conditions in
row `0`, a fresh `FunctionalG`, an all-`False` mask whose row `0` is then marked
`True`, and `current_step = 0`. -/
def SolverR.construct (m_2 R_in : Vec) (r : Vec) (K : Mat) (u_0 R_0 : Vec)
    (x : Vec) (dt : ℚ) (N M T : ℕ) : SolverR :=
  { m_2 := m_2, R_in := R_in, r := r, K := K, u := initField u_0 (N + 2) T,
    R := initField R_0 (M + 2) T, G := FunctionalG.construct r K u_0 x N M T,
    mask := updateMaskRow (zerosMask (T + 1) (M + 2)) 0 true, current_step := 0,
    dt := dt }

/-- `AbstractSolver._is_next_step` (lines 89-98); defined by the source but never
invoked by it. -/
def SolverR.is_next_step (s : SolverR) (n : ℕ) : Bool := n ≤ s.current_step + 1

/-- `AbstractSolver._update_step` (lines 100-109); defined by the source but never
invoked by it. -/
def SolverR.update_step (s : SolverR) (n : ℕ) : SolverR := { s with current_step := n + 1 }

/-- `AbstractSolverR.actualize_row` (lines 255-262): validate the incoming population
row against `u[n]`, copy it into `u[n]`, forward it to `G.actualize_row`, and clear
the solver's own mask row `n`. -/
def SolverR.actualize_row (s : SolverR) (row : Vec) (n : ℕ) : Except PyErr SolverR := do
  let _ ← validate_nth_row row (s.u.getD n [])
  let Gnew ← s.G.actualize_row row n
  .ok { s with u := s.u.set n row, G := Gnew, mask := updateMaskRow s.mask n false }

/-- `SolverRMethod1.actualize_step_np1` (lines 301-305): if row `n+1` is not yet marked
computed, set `R[n+1] = (1 - dt * (m_2 + G[n])) * R[n] + dt * R_in` and mark the row;
in both cases return `R[n+1]`. -/
def SolverRMethod1.actualize_step_np1 (s : SolverR) (n : ℕ) : Vec × SolverR :=
  if isRowCalculated s.mask (n + 1) = false then
    let gn := s.G.getRow n
    let newRow := vAdd (vMul (vScalarSub 1 (vSMul s.dt (vAdd s.m_2 gn.1)))
      (s.R.getD n [])) (vSMul s.dt s.R_in)
    let s2 := { s with G := gn.2.1, R := s.R.set (n + 1) newRow,
                       mask := updateMaskRow s.mask (n + 1) true }
    (s2.R.getD (n + 1) [], s2)
  else (s.R.getD (n + 1) [], s)

/-- `SolverRMethod2.actualize_step_np1` (lines 313-319): if row `n+1` is not yet marked
computed, evaluate the functional one step ahead and set `R[n+1] = R_in / (m_2 + G[n+1])`
and mark the row; in both cases return `R[n+1]`. -/
def SolverRMethod2.actualize_step_np1 (s : SolverR) (n : ℕ) : Vec × SolverR :=
  if isRowCalculated s.mask (n + 1) = false then
    let G_np1 := s.G.getRow (n + 1)
    let R_np1 := vDiv s.R_in (vAdd s.m_2 G_np1.1)
    let s2 := { s with G := G_np1.2.1, R := s.R.set (n + 1) R_np1,
                       mask := updateMaskRow s.mask (n + 1) true }
    (s2.R.getD (n + 1) [], s2)
  else (s.R.getD (n + 1) [], s)

/-- Observable events of one driver-loop iteration of `solve_perthame`.  Each
constructor records one of the four method calls of lines 62-65 together with the row
index passed to it. -/
inductive Event
  | uActRow : ℕ → Event
  | uStep : ℕ → Event
  | rActRow : ℕ → Event
  | rStep : ℕ → Event
deriving Repr, DecidableEq

/-- Pluggable resource-update scheme: the `actualize_step_np1` of the chosen
`SolverR` subclass. -/
abbrev RStep := SolverR → ℕ → Vec × SolverR

/-- One iteration of the driver loop of `solve_perthame` (lines 61-65): feed `R[n]` to
`u.actualize_row`, advance `u` with `u.actualize_step_np1(n)`, feed the resulting
`u[n+1]` to `R.actualize_row`, and advance `R` with its `actualize_step_np1(n)`.  The
emitted event list records the four calls in the order performed. -/
def driver_iter (rstep : RStep) (st : SolverU × SolverR) (n : ℕ) :
    Except PyErr ((SolverU × SolverR) × List Event) := do
  let u1 ← st.1.actualize_row (st.2.R.getD n []) n
  let u2 := (u1.actualize_step_np1 n).2
  let r1 ← st.2.actualize_row (u2.u.getD (n + 1) []) (n + 1)
  let r2 := (rstep r1 n).2
  .ok ((u2, r2), [.uActRow n, .uStep n, .rActRow (n + 1), .rStep n])

/-- The driver loop of `solve_perthame` from step `n`, for `k` more iterations,
accumulating the event trace. -/
def driver_go (rstep : RStep) : (SolverU × SolverR) → ℕ → ℕ →
    Except PyErr ((SolverU × SolverR) × List Event)
  | st, _, 0 => .ok (st, [])
  | st, n, k + 1 => do
    let r ← driver_iter rstep st n
    let rest ← driver_go rstep r.1 (n + 1) k
    .ok (rest.1, r.2 ++ rest.2)

/-- The driver loop of `solve_perthame` (lines 61-65): `for n in range(T)` starting
from the freshly constructed pair of solvers. -/
def driver_loop (rstep : RStep) (T : ℕ) (st : SolverU × SolverR) :
    Except PyErr ((SolverU × SolverR) × List Event) :=
  driver_go rstep st 0 T

/-- Event trace the spec prescribes for the iterations `n, n+1, ..., n+k-1` of the
driver loop: for each `n` in order, exactly the four calls
`u.actualize_row(R[n], n)`, `u.actualize_step_np1(n)`, `R.actualize_row(u[n+1], n+1)`,
`R.actualize_step_np1(n)`. -/
def expected_trace : ℕ → ℕ → List Event
  | _, 0 => []
  | n, k + 1 =>
    [Event.uActRow n, Event.uStep n, Event.rActRow (n + 1), Event.rStep n] ++
      expected_trace (n + 1) k

/-- Mesh of `num` evenly spaced points, numpy `np.linspace(a, b, num)`. -/
def linspace (a b : ℚ) (num : ℕ) : Vec :=
  (List.range num).map (fun i => a + (b - a) * i / ((num : ℚ) - 1))

/-- `solve_perthame` (lines 24-66): build the meshes `x` and `y` (raising `TypeError`
when `y_lims` or `M` is `None`, since line 38 unpacks `y_lims` into `np.linspace` and
adds `2` to `M`), sample every coefficient function on them, default `T` to `100` when
it is `None`, instantiate the two solvers, and run the driver loop.  The scheme
argument models the `solver_R` strategy selector; `h1` is the trait-mesh spacing of
the missing `AbstractDiscreteFunction`. -/
def solve_perthame (u_0 R_0 r R_in m_1 m_2 : ℚ → ℚ) (K : ℚ → ℚ → ℚ) (eps : ℚ)
    (rstep : RStep) (x_lims : ℚ × ℚ) (y_lims : Option (ℚ × ℚ)) (N : ℕ)
    (M : Option ℕ) (dt : ℚ) (T : Option ℕ) :
    Except PyErr ((SolverU × SolverR) × List Event) := do
  let x := linspace x_lims.1 x_lims.2 (N + 2)
  let yl ← match y_lims with
    | some yl => pure yl
    | none => Except.error PyErr.typeError
  let m ← match M with
    | some m => pure m
    | none => Except.error PyErr.typeError
  let y := linspace yl.1 yl.2 (m + 2)
  let u0v := x.map u_0
  let R0v := y.map R_0
  let rv := x.map r
  let Rinv := y.map R_in
  let m1v := x.map m_1
  let m2v := y.map m_2
  let Km := x.map (fun xp => y.map (fun yp => K xp yp))
  let Tn := T.getD 100
  let h1 := (x_lims.2 - x_lims.1) / ((N : ℚ) + 1)
  let Rsol := SolverR.construct m2v Rinv rv Km u0v R0v x dt N m Tn
  let usol := SolverU.construct m1v eps rv Km u0v R0v y dt h1 N m Tn
  driver_loop rstep Tn (usol, Rsol)

/-- Iterated evaluation of `FunctionalF` at an arbitrary list of `(row, column)`
index pairs, threading the cache state; models any sequence of `__call__`
invocations between two evaluations of interest. -/
def FunctionalF.foldCalls (f : FunctionalF) (ops : List (ℕ × ℕ)) : FunctionalF :=
  ops.foldl (fun g pq => (g.call pq.1 pq.2).2.1) f

/-- Iterated evaluation of `FunctionalG` at an arbitrary list of `(row, column)`
index pairs, threading the cache state. -/
def FunctionalG.foldCalls (g : FunctionalG) (ops : List (ℕ × ℕ)) : FunctionalG :=
  ops.foldl (fun g2 pq => (g2.call pq.1 pq.2).2.1) g

/-- Small concrete `FunctionalF` state (`N = M = 0`, `T = 1`). -/
def exF : FunctionalF := FunctionalF.construct [[1, 1], [1, 1]] [1, 1] [0, 1] 0 0 1

/-- Small concrete `FunctionalG` state (`N = M = 0`, `T = 1`). -/
def exG : FunctionalG :=
  FunctionalG.construct [1, 1] [[1, 1], [1, 1]] [1, 1] [0, 1] 0 0 1

/-- Small concrete `SolverU` state (`N = M = 0`, `T = 1`, `eps = dt = h1 = 1`). -/
def exU : SolverU :=
  SolverU.construct [0, 0] 1 [1, 1] [[1, 1], [1, 1]] [1, 1] [1, 1] [0, 1] 1 1 0 0 1

/-- Small concrete `SolverR` state (`N = M = 0`, `T = 1`, `dt = 1`). -/
def exR : SolverR :=
  SolverR.construct [1, 1] [1, 1] [1, 1] [[1, 1], [1, 1]] [1, 1] [1, 1] [0, 1] 1 0 0 1

/-- Transition operator exactly as the spec describes it entrywise, for comparison
with the one the source builds: superdiagonal and subdiagonal entries `alpha` except
the corners `(0, 1)` and `(N+1, N)` which are `2 * alpha`, diagonal entry `i` equal to
`1 - 2 * alpha + dt * (-m_1[i] + r[i] * Fn[i])` with `Fn` the vector of functional `F`
values at the current time row, and `0` elsewhere. -/
def transition_matrix_claim (alpha dt : ℚ) (m_1 r Fn : Vec) (N : ℕ) : FMat :=
  fun i j =>
    if j = i + 1 then (if i = 0 then 2 * alpha else alpha)
    else if i = j + 1 then (if j = N then 2 * alpha else alpha)
    else if i = j then
      1 - 2 * alpha + dt * (-(m_1.getD i 0) + r.getD i 0 * Fn.getD i 0)
    else 0

/-- Concrete successor state of `exU` after actualizing resource row `0`. -/
def exU_after : SolverU := (exU.actualize_row [5, 5] 0).toOption.getD exU

/-- Concrete successor state of `exR` after actualizing population row `0`. -/
def exR_after : SolverR := (exR.actualize_row [5, 5] 0).toOption.getD exR

/-- Concrete `SolverR` state (`N = 1`, `M = 0`, `T = 1`, `dt = 1`) whose population
row `1` is strongly negative, driving the functional `G` at row `1` below `-m_2`. -/
def cexR : SolverR :=
  { m_2 := [1, 1], R_in := [1, 1], r := [1, 1, 1], K := [[1, 1], [1, 1], [1, 1]],
    u := [[0, 0, 0], [-100, -100, -100]], R := [[0, 0], [0, 0]],
    G := { r := [1, 1, 1], K := [[1, 1], [1, 1], [1, 1]],
           u := [[0, 0, 0], [-100, -100, -100]],
           matrix := [[0, 0], [0, 0]], mask := [[false, false], [false, false]],
           x := [0, 1/2, 1], M := 0 },
    mask := [[true, true], [false, false]], current_step := 0, dt := 1 }

/-! Access and shape helper lemmas. -/

theorem getD_set_self {α : Type} (l : List α) {n : ℕ} (x d : α) (h : n < l.length) :
    (l.set n x).getD n d = x := by
  simp [List.getD_eq_getElem?_getD, List.getElem?_set_self h]

theorem getD_set_ne {α : Type} (l : List α) {m n : ℕ} (x d : α) (h : m ≠ n) :
    (l.set m x).getD n d = l.getD n d := by
  simp [List.getD_eq_getElem?_getD, List.getElem?_set_ne h]

theorem getD_map {α β : Type} (f : α → β) (l : List α) (d : β) {n : ℕ}
    (h : n < l.length) : (l.map f).getD n d = f l[n] := by
  rw [List.getD_eq_getElem _ _ (by simpa using h), List.getElem_map]

theorem getD_zipWith {α β γ : Type} (f : α → β → γ) (a : List α) (b : List β) (d : γ)
    {n : ℕ} (ha : n < a.length) (hb : n < b.length) :
    (List.zipWith f a b).getD n d = f a[n] b[n] := by
  rw [List.getD_eq_getElem _ _ (by rw [List.length_zipWith]; omega),
    List.getElem_zipWith]

theorem getD_replicate {α : Type} (x d : α) {n m : ℕ} (h : m < n) :
    (List.replicate n x).getD m d = x := by
  rw [List.getD_eq_getElem _ _ (by simpa using h), List.getElem_replicate]

/-- Shape of a 2D buffer: `rows` rows, each of length `cols`. -/
abbrev gridWF {α : Type} (m : List (List α)) (rows cols : ℕ) : Prop :=
  m.length = rows ∧ ∀ row ∈ m, row.length = cols

theorem gridWF_row {α : Type} {m : List (List α)} {rows cols : ℕ}
    (h : gridWF m rows cols) {n : ℕ} (hn : n < rows) : (m.getD n []).length = cols := by
  have hlen : n < m.length := h.1 ▸ hn
  rw [List.getD_eq_getElem _ _ hlen]
  exact h.2 _ (List.getElem_mem hlen)

theorem gridWF_set {α : Type} {m : List (List α)} {rows cols : ℕ}
    (h : gridWF m rows cols) (n : ℕ) {row : List α} (hrow : row.length = cols) :
    gridWF (m.set n row) rows cols := by
  refine ⟨by simp [h.1], fun q hq => ?_⟩
  rcases List.mem_or_eq_of_mem_set hq with hq | hq
  · exact h.2 q hq
  · exact hq ▸ hrow

theorem gridWF_setRowMod {α : Type} {m : List (List α)} {rows cols : ℕ}
    (h : gridWF m rows cols) (n : ℕ) (g : List α → List α)
    (hg : ∀ row, (g row).length = row.length) :
    gridWF (m.set n (g (m.getD n []))) rows cols := by
  by_cases hn : n < m.length
  · exact gridWF_set h n (by rw [hg]; exact gridWF_row h (h.1 ▸ hn))
  · rw [List.set_eq_of_length_le (by omega)]
    exact h

/-! Well-formedness of the functional and solver states, for meshes of sizes
`N`, `M` and `T` time steps. -/

abbrev FWF (N M T : ℕ) (f : FunctionalF) : Prop :=
  f.N = N ∧ gridWF f.K (N + 2) (M + 2) ∧ gridWF f.R (T + 1) (M + 2) ∧
  gridWF f.matrix (T + 1) (N + 2) ∧ gridWF f.mask (T + 1) (N + 2) ∧
  f.y.length = M + 2

abbrev GWF (N M T : ℕ) (g : FunctionalG) : Prop :=
  g.M = M ∧ g.r.length = N + 2 ∧ gridWF g.K (N + 2) (M + 2) ∧
  gridWF g.u (T + 1) (N + 2) ∧ gridWF g.matrix (T + 1) (M + 2) ∧
  gridWF g.mask (T + 1) (M + 2) ∧ g.x.length = N + 2

abbrev UWF (N M T : ℕ) (s : SolverU) : Prop :=
  s.N = N ∧ s.m_1.length = N + 2 ∧ s.r.length = N + 2 ∧ gridWF s.K (N + 2) (M + 2) ∧
  gridWF s.u (T + 1) (N + 2) ∧ gridWF s.R (T + 1) (M + 2) ∧ FWF N M T s.F ∧
  gridWF s.mask (T + 1) (N + 2)

abbrev RWF (N M T : ℕ) (s : SolverR) : Prop :=
  s.m_2.length = M + 2 ∧ s.R_in.length = M + 2 ∧ s.r.length = N + 2 ∧
  gridWF s.K (N + 2) (M + 2) ∧ gridWF s.u (T + 1) (N + 2) ∧
  gridWF s.R (T + 1) (M + 2) ∧ GWF N M T s.G ∧ gridWF s.mask (T + 1) (M + 2)

/-! Basic facts about `FunctionalF.call` and `FunctionalG.call`. -/

theorem FunctionalF.call_K_F (f : FunctionalF) (n j : ℕ) : (f.call n j).2.1.K = f.K := by
  unfold FunctionalF.call
  split <;> rfl

theorem FunctionalF.call_R (f : FunctionalF) (n j : ℕ) : (f.call n j).2.1.R = f.R := by
  unfold FunctionalF.call
  split <;> rfl

theorem FunctionalF.call_y (f : FunctionalF) (n j : ℕ) : (f.call n j).2.1.y = f.y := by
  unfold FunctionalF.call
  split <;> rfl

theorem FunctionalF.call_N (f : FunctionalF) (n j : ℕ) : (f.call n j).2.1.N = f.N := by
  unfold FunctionalF.call
  split <;> rfl

theorem FWF_call {N M T : ℕ} {f : FunctionalF} (h : FWF N M T f) (n j : ℕ) :
    FWF N M T (f.call n j).2.1 := by
  obtain ⟨h1, h2, h3, h4, h5, h6⟩ := h
  unfold FunctionalF.call
  split
  · exact ⟨h1, h2, h3, gridWF_setRowMod h4 n _ (fun row => List.length_set ..),
      gridWF_setRowMod h5 n _ (fun row => List.length_set ..), h6⟩
  · exact ⟨h1, h2, h3, h4, h5, h6⟩

theorem FunctionalG.call_r (g : FunctionalG) (n k : ℕ) : (g.call n k).2.1.r = g.r := by
  unfold FunctionalG.call
  split <;> rfl

theorem FunctionalG.call_K_G (g : FunctionalG) (n k : ℕ) : (g.call n k).2.1.K = g.K := by
  unfold FunctionalG.call
  split <;> rfl

theorem FunctionalG.call_u (g : FunctionalG) (n k : ℕ) : (g.call n k).2.1.u = g.u := by
  unfold FunctionalG.call
  split <;> rfl

theorem FunctionalG.call_x (g : FunctionalG) (n k : ℕ) : (g.call n k).2.1.x = g.x := by
  unfold FunctionalG.call
  split <;> rfl

theorem FunctionalG.call_M (g : FunctionalG) (n k : ℕ) : (g.call n k).2.1.M = g.M := by
  unfold FunctionalG.call
  split <;> rfl

theorem GWF_call {N M T : ℕ} {g : FunctionalG} (h : GWF N M T g) (n k : ℕ) :
    GWF N M T (g.call n k).2.1 := by
  obtain ⟨h1, h2, h3, h4, h5, h6, h7⟩ := h
  unfold FunctionalG.call
  split
  · exact ⟨h1, h2, h3, h4, gridWF_setRowMod h5 n _ (fun row => List.length_set ..),
      gridWF_setRowMod h6 n _ (fun row => List.length_set ..), h7⟩
  · exact ⟨h1, h2, h3, h4, h5, h6, h7⟩

/-! Facts about `mapCalls` and `getRow`. -/

theorem FunctionalF.mapCalls_length_F (f : FunctionalF) (n : ℕ) (js : List ℕ) :
    (f.mapCalls n js).1.length = js.length := by
  induction js generalizing f with
  | nil => rfl
  | cons j js ih => simpa [FunctionalF.mapCalls] using ih (f.call n j).2.1

theorem FunctionalF.mapCalls_R (f : FunctionalF) (n : ℕ) (js : List ℕ) :
    (f.mapCalls n js).2.1.R = f.R := by
  induction js generalizing f with
  | nil => rfl
  | cons j js ih =>
    rw [FunctionalF.mapCalls]
    rw [ih (f.call n j).2.1, FunctionalF.call_R]

theorem FWF_mapCalls {N M T : ℕ} {f : FunctionalF} (h : FWF N M T f) (n : ℕ)
    (js : List ℕ) : FWF N M T (f.mapCalls n js).2.1 := by
  induction js generalizing f with
  | nil => exact h
  | cons j js ih => exact ih (FWF_call h n j)

theorem FunctionalF.getRow_length_F {N M T : ℕ} {f : FunctionalF} (h : FWF N M T f)
    (n : ℕ) : (f.getRow n).1.length = N + 2 := by
  rw [FunctionalF.getRow, FunctionalF.mapCalls_length_F, List.length_range, h.1]

theorem FWF_getRow {N M T : ℕ} {f : FunctionalF} (h : FWF N M T f) (n : ℕ) :
    FWF N M T (f.getRow n).2.1 := FWF_mapCalls h n _

theorem FunctionalG.mapCalls_length_G (g : FunctionalG) (n : ℕ) (ks : List ℕ) :
    (g.mapCalls n ks).1.length = ks.length := by
  induction ks generalizing g with
  | nil => rfl
  | cons k ks ih => simpa [FunctionalG.mapCalls] using ih (g.call n k).2.1

theorem FunctionalG.mapCalls_u (g : FunctionalG) (n : ℕ) (ks : List ℕ) :
    (g.mapCalls n ks).2.1.u = g.u := by
  induction ks generalizing g with
  | nil => rfl
  | cons k ks ih =>
    rw [FunctionalG.mapCalls]
    rw [ih (g.call n k).2.1, FunctionalG.call_u]

theorem GWF_mapCalls {N M T : ℕ} {g : FunctionalG} (h : GWF N M T g) (n : ℕ)
    (ks : List ℕ) : GWF N M T (g.mapCalls n ks).2.1 := by
  induction ks generalizing g with
  | nil => exact h
  | cons k ks ih => exact ih (GWF_call h n k)

theorem FunctionalG.getRow_length_G {N M T : ℕ} {g : FunctionalG} (h : GWF N M T g)
    (n : ℕ) : (g.getRow n).1.length = M + 2 := by
  rw [FunctionalG.getRow, FunctionalG.mapCalls_length_G, List.length_range, h.1]

theorem GWF_getRow {N M T : ℕ} {g : FunctionalG} (h : GWF N M T g) (n : ℕ) :
    GWF N M T (g.getRow n).2.1 := GWF_mapCalls h n _

/-! Facts about `actualize_row` on the functionals. -/

theorem FunctionalF.actualize_row_ok_F {N M T : ℕ} {f : FunctionalF} (h : FWF N M T f)
    {n : ℕ} (hn : n ≤ T) {row : Vec} (hrow : row.length = M + 2) :
    f.actualize_row row n =
      .ok { f with R := f.R.set n row, mask := updateMaskRow f.mask n false } := by
  have hexp : (f.R.getD n []).length = M + 2 := gridWF_row h.2.2.1 (by omega)
  rw [FunctionalF.actualize_row, validate_nth_row, if_pos (by rw [hrow, hexp])]
  rfl

theorem FunctionalF.actualize_row_error_F {f : FunctionalF} {n : ℕ} {row : Vec}
    (hrow : row.length ≠ (f.R.getD n []).length) :
    f.actualize_row row n = .error .shapeMismatch := by
  rw [FunctionalF.actualize_row, validate_nth_row, if_neg hrow]
  rfl

theorem FWF_actualize_row {N M T : ℕ} {f : FunctionalF} (h : FWF N M T f)
    {n : ℕ} (hn : n ≤ T) {row : Vec} (hrow : row.length = M + 2) :
    FWF N M T { f with R := f.R.set n row, mask := updateMaskRow f.mask n false } := by
  obtain ⟨h1, h2, h3, h4, h5, h6⟩ := h
  exact ⟨h1, h2, gridWF_set h3 n hrow, h4,
    gridWF_setRowMod h5 n _ (fun row => List.length_replicate ..), h6⟩

theorem FunctionalG.actualize_row_ok_G {N M T : ℕ} {g : FunctionalG} (h : GWF N M T g)
    {n : ℕ} (hn : n ≤ T) {row : Vec} (hrow : row.length = N + 2) :
    g.actualize_row row n =
      .ok { g with u := g.u.set n row, mask := updateMaskRow g.mask n false } := by
  have hexp : (g.u.getD n []).length = N + 2 := gridWF_row h.2.2.2.1 (by omega)
  rw [FunctionalG.actualize_row, validate_nth_row, if_pos (by rw [hrow, hexp])]
  rfl

theorem FunctionalG.actualize_row_error_G {g : FunctionalG} {n : ℕ} {row : Vec}
    (hrow : row.length ≠ (g.u.getD n []).length) :
    g.actualize_row row n = .error .shapeMismatch := by
  rw [FunctionalG.actualize_row, validate_nth_row, if_neg hrow]
  rfl

theorem GWF_actualize_row {N M T : ℕ} {g : FunctionalG} (h : GWF N M T g)
    {n : ℕ} (hn : n ≤ T) {row : Vec} (hrow : row.length = N + 2) :
    GWF N M T { g with u := g.u.set n row, mask := updateMaskRow g.mask n false } := by
  obtain ⟨h1, h2, h3, h4, h5, h6, h7⟩ := h
  exact ⟨h1, h2, h3, gridWF_set h4 n hrow, h5,
    gridWF_setRowMod h6 n _ (fun row => List.length_replicate ..), h7⟩

/-! Entries away from a single-entry assignment, and mask rows after a row update. -/

theorem getD2_set_ne {α : Type} (m : List (List α)) (p q n j : ℕ) (v d : α)
    (hne : p ≠ n ∨ q ≠ j) :
    ((m.set p ((m.getD p []).set q v)).getD n []).getD j d = (m.getD n []).getD j d := by
  rcases hne with hne | hne
  · rw [getD_set_ne _ _ _ hne]
  · by_cases hp : p = n
    · subst hp
      by_cases hlen : p < m.length
      · rw [getD_set_self _ _ _ hlen, getD_set_ne _ _ _ hne]
      · rw [List.set_eq_of_length_le (by omega)]
    · rw [getD_set_ne _ _ _ hp]

theorem updateMaskRow_getD_self {m : BoolMat} {n : ℕ} (hn : n < m.length) (b : Bool) :
    (updateMaskRow m n b).getD n [] = List.replicate (m.getD n []).length b := by
  rw [updateMaskRow, getD_set_self _ _ _ hn]

theorem maskAt_updateMaskRow_false {m : BoolMat} {n : ℕ} (hn : n < m.length) (j : ℕ) :
    maskAt (updateMaskRow m n false) n j = false := by
  rw [maskAt, updateMaskRow_getD_self hn]
  by_cases hj : j < (m.getD n []).length
  · rw [getD_replicate _ _ hj]
  · have hle : (m.getD n []).length ≤ j := by omega
    rw [List.getD_eq_getElem?_getD, List.getElem?_eq_none (by simpa using hle)]
    rfl

theorem isRowCalculated_updateMaskRow_true {m : BoolMat} {n : ℕ} (hn : n < m.length) :
    isRowCalculated (updateMaskRow m n true) n = true := by
  rw [isRowCalculated, updateMaskRow_getD_self hn, List.all_eq_true]
  intro x hx
  exact (List.mem_replicate.mp hx).2

/-! Evaluations at other indices never disturb an entry that is already cached. -/

theorem FunctionalF.call_preserves_done_F {f : FunctionalF} {n j : ℕ}
    (hm : maskAt f.mask n j = true) (p q : ℕ) :
    maskAt (f.call p q).2.1.mask n j = true ∧
      entry (f.call p q).2.1.matrix n j = entry f.matrix n j := by
  by_cases hc : maskAt f.mask p q = false
  · have hne : p ≠ n ∨ q ≠ j := by
      by_contra hcon
      push_neg at hcon
      rw [hcon.1, hcon.2, hm] at hc
      exact absurd hc (by simp)
    simp only [FunctionalF.call, if_pos hc]
    exact ⟨by rw [maskAt, setMask, getD2_set_ne _ _ _ _ _ _ _ hne]; exact hm,
      by rw [entry, setEntryM, getD2_set_ne _ _ _ _ _ _ _ hne]; rfl⟩
  · simp only [FunctionalF.call, if_neg hc]
    simpa using hm

theorem FunctionalF.foldCalls_preserves_done_F {f : FunctionalF} {n j : ℕ}
    (hm : maskAt f.mask n j = true) (ops : List (ℕ × ℕ)) :
    maskAt (f.foldCalls ops).mask n j = true ∧
      entry (f.foldCalls ops).matrix n j = entry f.matrix n j := by
  induction ops generalizing f with
  | nil => exact ⟨hm, rfl⟩
  | cons pq ops ih =>
    have h1 := FunctionalF.call_preserves_done_F hm pq.1 pq.2
    have h2 := ih h1.1
    exact ⟨h2.1, h2.2.trans h1.2⟩

theorem FunctionalG.call_preserves_done_G {g : FunctionalG} {n k : ℕ}
    (hm : maskAt g.mask n k = true) (p q : ℕ) :
    maskAt (g.call p q).2.1.mask n k = true ∧
      entry (g.call p q).2.1.matrix n k = entry g.matrix n k := by
  by_cases hc : maskAt g.mask p q = false
  · have hne : p ≠ n ∨ q ≠ k := by
      by_contra hcon
      push_neg at hcon
      rw [hcon.1, hcon.2, hm] at hc
      exact absurd hc (by simp)
    simp only [FunctionalG.call, if_pos hc]
    exact ⟨by rw [maskAt, setMask, getD2_set_ne _ _ _ _ _ _ _ hne]; exact hm,
      by rw [entry, setEntryM, getD2_set_ne _ _ _ _ _ _ _ hne]; rfl⟩
  · simp only [FunctionalG.call, if_neg hc]
    simpa using hm

theorem FunctionalG.foldCalls_preserves_done_G {g : FunctionalG} {n k : ℕ}
    (hm : maskAt g.mask n k = true) (ops : List (ℕ × ℕ)) :
    maskAt (g.foldCalls ops).mask n k = true ∧
      entry (g.foldCalls ops).matrix n k = entry g.matrix n k := by
  induction ops generalizing g with
  | nil => exact ⟨hm, rfl⟩
  | cons pq ops ih =>
    have h1 := FunctionalG.call_preserves_done_G hm pq.1 pq.2
    have h2 := ih h1.1
    exact ⟨h2.1, h2.2.trans h1.2⟩

/-! Solver-level `actualize_row`: explicit success and failure forms, and
preservation of well-formedness. -/

theorem SolverU.actualize_row_ok_U {N M T : ℕ} {s : SolverU} (h : UWF N M T s) {n : ℕ}
    (hn : n ≤ T) {row : Vec} (hrow : row.length = M + 2) :
    s.actualize_row row n =
      .ok { s with
              R := s.R.set n row,
              F := { s.F with
                       R := s.F.R.set n row,
                       mask := updateMaskRow s.F.mask n false },
              mask := updateMaskRow s.mask n false } := by
  have h1 : row.length = (s.R.getD n []).length := by
    rw [hrow, gridWF_row h.2.2.2.2.2.1 (show n < T + 1 by omega)]
  rw [SolverU.actualize_row, validate_nth_row, if_pos h1,
    FunctionalF.actualize_row_ok_F h.2.2.2.2.2.2.1 hn hrow]
  rfl

theorem SolverU.actualize_row_error_U {N M T : ℕ} {s : SolverU} (h : UWF N M T s)
    {n : ℕ} (hn : n ≤ T) {row : Vec} (hrow : row.length ≠ M + 2) :
    s.actualize_row row n = .error .shapeMismatch := by
  have h1 : row.length ≠ (s.R.getD n []).length := by
    rw [gridWF_row h.2.2.2.2.2.1 (show n < T + 1 by omega)]
    exact hrow
  rw [SolverU.actualize_row, validate_nth_row, if_neg h1]
  rfl

theorem UWF_actualize_row {N M T : ℕ} {s : SolverU} (h : UWF N M T s) {n : ℕ}
    (hn : n ≤ T) {row : Vec} (hrow : row.length = M + 2) :
    UWF N M T
      { s with
          R := s.R.set n row,
          F := { s.F with
                   R := s.F.R.set n row,
                   mask := updateMaskRow s.F.mask n false },
          mask := updateMaskRow s.mask n false } := by
  obtain ⟨h1, h2, h3, h4, h5, h6, h7, h8⟩ := h
  exact ⟨h1, h2, h3, h4, h5, gridWF_set h6 n hrow, FWF_actualize_row h7 hn hrow,
    gridWF_setRowMod h8 n _ (fun r => List.length_replicate ..)⟩

theorem SolverR.actualize_row_ok_R {N M T : ℕ} {s : SolverR} (h : RWF N M T s) {n : ℕ}
    (hn : n ≤ T) {row : Vec} (hrow : row.length = N + 2) :
    s.actualize_row row n =
      .ok { s with
              u := s.u.set n row,
              G := { s.G with
                       u := s.G.u.set n row,
                       mask := updateMaskRow s.G.mask n false },
              mask := updateMaskRow s.mask n false } := by
  have h1 : row.length = (s.u.getD n []).length := by
    rw [hrow, gridWF_row h.2.2.2.2.1 (show n < T + 1 by omega)]
  rw [SolverR.actualize_row, validate_nth_row, if_pos h1,
    FunctionalG.actualize_row_ok_G h.2.2.2.2.2.2.1 hn hrow]
  rfl

theorem SolverR.actualize_row_error_R {N M T : ℕ} {s : SolverR} (h : RWF N M T s)
    {n : ℕ} (hn : n ≤ T) {row : Vec} (hrow : row.length ≠ N + 2) :
    s.actualize_row row n = .error .shapeMismatch := by
  have h1 : row.length ≠ (s.u.getD n []).length := by
    rw [gridWF_row h.2.2.2.2.1 (show n < T + 1 by omega)]
    exact hrow
  rw [SolverR.actualize_row, validate_nth_row, if_neg h1]
  rfl

theorem RWF_actualize_row {N M T : ℕ} {s : SolverR} (h : RWF N M T s) {n : ℕ}
    (hn : n ≤ T) {row : Vec} (hrow : row.length = N + 2) :
    RWF N M T
      { s with
          u := s.u.set n row,
          G := { s.G with
                   u := s.G.u.set n row,
                   mask := updateMaskRow s.G.mask n false },
          mask := updateMaskRow s.mask n false } := by
  obtain ⟨h1, h2, h3, h4, h5, h6, h7, h8⟩ := h
  exact ⟨h1, h2, h3, h4, gridWF_set h5 n hrow, h6, GWF_actualize_row h7 hn hrow,
    gridWF_setRowMod h8 n _ (fun r => List.length_replicate ..)⟩

/-! The `SolverU` transition matrix: entrywise characterization. -/

theorem vNeg_getD (a : Vec) {i : ℕ} (h : i < a.length) :
    (vNeg a).getD i 0 = -(a.getD i 0) := by
  rw [vNeg, getD_map _ _ _ h, List.getD_eq_getElem _ _ h]

theorem vMul_getD (a b : Vec) {i : ℕ} (ha : i < a.length) (hb : i < b.length) :
    (vMul a b).getD i 0 = a.getD i 0 * b.getD i 0 := by
  rw [vMul, getD_zipWith _ _ _ _ ha hb, List.getD_eq_getElem _ _ ha,
    List.getD_eq_getElem _ _ hb]

theorem vAdd_getD (a b : Vec) {i : ℕ} (ha : i < a.length) (hb : i < b.length) :
    (vAdd a b).getD i 0 = a.getD i 0 + b.getD i 0 := by
  rw [vAdd, getD_zipWith _ _ _ _ ha hb, List.getD_eq_getElem _ _ ha,
    List.getD_eq_getElem _ _ hb]

theorem vDiv_getD (a b : Vec) {i : ℕ} (ha : i < a.length) (hb : i < b.length) :
    (vDiv a b).getD i 0 = a.getD i 0 / b.getD i 0 := by
  rw [vDiv, getD_zipWith _ _ _ _ ha hb, List.getD_eq_getElem _ _ ha,
    List.getD_eq_getElem _ _ hb]

theorem vSMul_getD (c : ℚ) (a : Vec) {i : ℕ} (h : i < a.length) :
    (vSMul c a).getD i 0 = c * a.getD i 0 := by
  rw [vSMul, getD_map _ _ _ h, List.getD_eq_getElem _ _ h]

theorem vScalarSub_getD (c : ℚ) (a : Vec) {i : ℕ} (h : i < a.length) :
    (vScalarSub c a).getD i 0 = c - a.getD i 0 := by
  rw [vScalarSub, getD_map _ _ _ h, List.getD_eq_getElem _ _ h]

theorem A_n_getD {N M T : ℕ} {s : SolverU} (h : UWF N M T s) (n : ℕ) {i : ℕ}
    (hi : i < N + 2) :
    (vAdd (vNeg s.m_1) (vMul s.r (s.F.getRow n).1)).getD i 0 =
      -(s.m_1.getD i 0) + s.r.getD i 0 * (s.F.getRow n).1.getD i 0 := by
  have hm1 : i < s.m_1.length := by rw [h.2.1]; omega
  have hr : i < s.r.length := by rw [h.2.2.1]; omega
  have hF : i < (s.F.getRow n).1.length := by
    rw [FunctionalF.getRow_length_F h.2.2.2.2.2.2.1 n]; omega
  have hneg : i < (vNeg s.m_1).length := by simpa [vNeg] using hm1
  have hmul : i < (vMul s.r (s.F.getRow n).1).length := by
    rw [vMul, List.length_zipWith]; omega
  rw [vAdd_getD _ _ hneg hmul, vNeg_getD _ hm1, vMul_getD _ _ hr hF]

theorem beta_getD {N M T : ℕ} {s : SolverU} (h : UWF N M T s) (n : ℕ) (c : ℚ) {i : ℕ}
    (hi : i < N + 2) :
    ((vAdd (vNeg s.m_1) (vMul s.r (s.F.getRow n).1)).map
        (fun a => 1 - 2 * c + s.dt * a)).getD i 0 =
      1 - 2 * c + s.dt *
        (-(s.m_1.getD i 0) + s.r.getD i 0 * (s.F.getRow n).1.getD i 0) := by
  have hlen : i < (vAdd (vNeg s.m_1) (vMul s.r (s.F.getRow n).1)).length := by
    rw [vAdd, List.length_zipWith, vNeg, List.length_map, vMul, List.length_zipWith,
      h.2.1, h.2.2.1, FunctionalF.getRow_length_F h.2.2.2.2.2.2.1 n]
    omega
  rw [getD_map _ _ _ hlen, ← List.getD_eq_getElem _ 0 hlen, A_n_getD h n hi]

theorem create_transition_matrix_entry {N M T : ℕ} {s : SolverU} (h : UWF N M T s)
    (n : ℕ) {i j : ℕ} (hi : i ≤ N + 1) (hj : j ≤ N + 1) :
    (s.create_transition_matrix n).1 i j =
      transition_matrix_claim (s.eps * s.dt / s.h1 ^ 2) s.dt s.m_1 s.r
        (s.F.getRow n).1 N i j := by
  have hN := h.1
  simp only [SolverU.create_transition_matrix, fadd, fset, npDiagSup, npDiagSub,
    npDiagMain, transition_matrix_claim, hN]
  by_cases hsup : j = i + 1
  · subst hsup
    have e1 : ¬(i = N + 1 ∧ i + 1 = N) := by omega
    have e2 : ¬(i = i + 1 + 1) := by omega
    have e3 : ¬(i = i + 1) := by omega
    by_cases hi0 : i = 0
    · subst hi0
      simp
    · have e4 : ¬(i = 0 ∧ i + 1 = 1) := by omega
      simp [e1, e2, e3, e4, hi0, List.getElem?_replicate, show i < N + 1 by omega]
  · by_cases hsub : i = j + 1
    · subst hsub
      have e1 : ¬(j + 1 = j) := by omega
      have e2 : ¬(j + 1 = 0 ∧ j = 1) := by omega
      have e3 : ¬(j = j + 1 + 1) := by omega
      by_cases hjN : j = N
      · subst hjN
        simp [e1, e2, e3]
      · have e4 : ¬(j + 1 = N + 1 ∧ j = N) := by omega
        simp [e1, e2, e3, e4, hjN, List.getElem?_replicate, show j < N + 1 by omega]
    · by_cases hdiag : i = j
      · subst hdiag
        have e1 : ¬(i = N + 1 ∧ i = N) := by omega
        have e2 : ¬(i = 0 ∧ i = 1) := by omega
        have e3 : ¬(i = i + 1) := by omega
        have hlen : i < (vAdd (vNeg s.m_1) (vMul s.r (s.F.getRow n).1)).length := by
          rw [vAdd, List.length_zipWith, vNeg, List.length_map, vMul,
            List.length_zipWith, h.2.1, h.2.2.1,
            FunctionalF.getRow_length_F h.2.2.2.2.2.2.1 n]
          omega
        have hval : (vAdd (vNeg s.m_1) (vMul s.r (s.F.getRow n).1))[i]? =
            some (-(s.m_1.getD i 0) +
              s.r.getD i 0 * (s.F.getRow n).1.getD i 0) := by
          rw [List.getElem?_eq_getElem hlen, ← List.getD_eq_getElem _ 0 hlen,
            A_n_getD h n (show i < N + 2 by omega)]
        simp [e1, e2, e3, hval]
      · have e1 : ¬(i = N + 1 ∧ j = N) := by omega
        have e2 : ¬(i = 0 ∧ j = 1) := by omega
        simp [e1, e2, hsup, hsub, hdiag]

/-- Explicit form of `SolverU.actualize_step_np1` when row `n + 1` is not yet
marked computed. -/
theorem SolverU.step_eq_U {s : SolverU} {n : ℕ}
    (hmask : isRowCalculated s.mask (n + 1) = false) :
    s.actualize_step_np1 n =
      ((s.u.set (n + 1)
          (dot (s.create_transition_matrix n).1 (s.u.getD n []) (s.N + 2))).getD
            (n + 1) [],
        { s with
            F := (s.F.getRow n).2.1,
            u := s.u.set (n + 1)
              (dot (s.create_transition_matrix n).1 (s.u.getD n []) (s.N + 2)),
            mask := updateMaskRow s.mask (n + 1) true }) := by
  rw [SolverU.actualize_step_np1, if_pos hmask]
  rfl

/-! Explicit forms and entrywise values of the two `SolverR` update schemes. -/

theorem SolverRMethod1.step_eq_m1 {s : SolverR} {n : ℕ}
    (hmask : isRowCalculated s.mask (n + 1) = false) :
    SolverRMethod1.actualize_step_np1 s n =
      ((s.R.set (n + 1)
          (vAdd (vMul (vScalarSub 1 (vSMul s.dt (vAdd s.m_2 (s.G.getRow n).1)))
            (s.R.getD n [])) (vSMul s.dt s.R_in))).getD (n + 1) [],
        { s with
            G := (s.G.getRow n).2.1,
            R := s.R.set (n + 1)
              (vAdd (vMul (vScalarSub 1 (vSMul s.dt (vAdd s.m_2 (s.G.getRow n).1)))
                (s.R.getD n [])) (vSMul s.dt s.R_in)),
            mask := updateMaskRow s.mask (n + 1) true }) := by
  rw [SolverRMethod1.actualize_step_np1, if_pos hmask]

theorem SolverRMethod2.step_eq_m2 {s : SolverR} {n : ℕ}
    (hmask : isRowCalculated s.mask (n + 1) = false) :
    SolverRMethod2.actualize_step_np1 s n =
      ((s.R.set (n + 1) (vDiv s.R_in (vAdd s.m_2 (s.G.getRow (n + 1)).1))).getD
          (n + 1) [],
        { s with
            G := (s.G.getRow (n + 1)).2.1,
            R := s.R.set (n + 1) (vDiv s.R_in (vAdd s.m_2 (s.G.getRow (n + 1)).1)),
            mask := updateMaskRow s.mask (n + 1) true }) := by
  rw [SolverRMethod2.actualize_step_np1, if_pos hmask]

theorem SolverRMethod1.step_entry_m1 {N M T : ℕ} {s : SolverR} (h : RWF N M T s)
    {n : ℕ} (hT : n + 1 ≤ T) (hmask : isRowCalculated s.mask (n + 1) = false)
    {j : ℕ} (hj : j ≤ M + 1) :
    ((SolverRMethod1.actualize_step_np1 s n).2.R.getD (n + 1) []).getD j 0 =
      (1 - s.dt * (s.m_2.getD j 0 + (s.G.getRow n).1.getD j 0)) *
          (s.R.getD n []).getD j 0 +
        s.dt * s.R_in.getD j 0 := by
  have hRlen : n + 1 < s.R.length := by rw [h.2.2.2.2.2.1.1]; omega
  have hm2 : j < s.m_2.length := by rw [h.1]; omega
  have hG : j < (s.G.getRow n).1.length := by
    rw [FunctionalG.getRow_length_G h.2.2.2.2.2.2.1 n]; omega
  have hRn : j < (s.R.getD n []).length := by
    rw [gridWF_row h.2.2.2.2.2.1 (show n < T + 1 by omega)]; omega
  have hRin : j < s.R_in.length := by rw [h.2.1]; omega
  have h1 : j < (vAdd s.m_2 (s.G.getRow n).1).length := by
    rw [vAdd, List.length_zipWith]; omega
  have h2 : j < (vSMul s.dt (vAdd s.m_2 (s.G.getRow n).1)).length := by
    rw [vSMul, List.length_map]; omega
  have h3 : j < (vScalarSub 1 (vSMul s.dt (vAdd s.m_2 (s.G.getRow n).1))).length := by
    rw [vScalarSub, List.length_map]; omega
  have h4 : j < (vMul (vScalarSub 1 (vSMul s.dt (vAdd s.m_2 (s.G.getRow n).1)))
      (s.R.getD n [])).length := by
    rw [vMul, List.length_zipWith]; omega
  have h5 : j < (vSMul s.dt s.R_in).length := by rw [vSMul, List.length_map]; omega
  rw [SolverRMethod1.step_eq_m1 hmask]
  show ((s.R.set (n + 1) _).getD (n + 1) []).getD j 0 = _
  rw [getD_set_self _ _ _ hRlen, vAdd_getD _ _ h4 h5, vMul_getD _ _ h3 hRn,
    vScalarSub_getD _ _ h2, vSMul_getD _ _ h1, vAdd_getD _ _ hm2 hG,
    vSMul_getD _ _ hRin]

theorem SolverRMethod2.step_entry_m2 {N M T : ℕ} {s : SolverR} (h : RWF N M T s)
    {n : ℕ} (hT : n + 1 ≤ T) (hmask : isRowCalculated s.mask (n + 1) = false)
    {j : ℕ} (hj : j ≤ M + 1) :
    ((SolverRMethod2.actualize_step_np1 s n).2.R.getD (n + 1) []).getD j 0 =
      s.R_in.getD j 0 / (s.m_2.getD j 0 + (s.G.getRow (n + 1)).1.getD j 0) := by
  have hRlen : n + 1 < s.R.length := by rw [h.2.2.2.2.2.1.1]; omega
  have hm2 : j < s.m_2.length := by rw [h.1]; omega
  have hG : j < (s.G.getRow (n + 1)).1.length := by
    rw [FunctionalG.getRow_length_G h.2.2.2.2.2.2.1 (n + 1)]; omega
  have hRin : j < s.R_in.length := by rw [h.2.1]; omega
  have h1 : j < (vAdd s.m_2 (s.G.getRow (n + 1)).1).length := by
    rw [vAdd, List.length_zipWith]; omega
  rw [SolverRMethod2.step_eq_m2 hmask]
  show ((s.R.set (n + 1) _).getD (n + 1) []).getD j 0 = _
  rw [getD_set_self _ _ _ hRlen, vDiv_getD _ _ hRin h1, vAdd_getD _ _ hm2 hG]

/-! Preservation of well-formedness by the stepping operations, and which rows
each operation leaves untouched. -/

theorem UWF_step {N M T : ℕ} {s : SolverU} (h : UWF N M T s) (n : ℕ) :
    UWF N M T (s.actualize_step_np1 n).2 := by
  by_cases hm : isRowCalculated s.mask (n + 1) = false
  · rw [SolverU.step_eq_U hm]
    obtain ⟨h1, h2, h3, h4, h5, h6, h7, h8⟩ := h
    exact ⟨h1, h2, h3, h4,
      gridWF_set h5 _ (by rw [dot, List.length_map, List.length_range, h1]), h6,
      FWF_getRow h7 n,
      gridWF_setRowMod h8 _ _ (fun r => List.length_replicate ..)⟩
  · rw [SolverU.actualize_step_np1, if_neg hm]
    exact h

theorem SolverU.step_u_other (s : SolverU) (n : ℕ) {k : ℕ} (hk : k ≠ n + 1) :
    (s.actualize_step_np1 n).2.u.getD k [] = s.u.getD k [] := by
  by_cases hm : isRowCalculated s.mask (n + 1) = false
  · rw [SolverU.step_eq_U hm]
    exact getD_set_ne _ _ _ (Ne.symm hk)
  · rw [SolverU.actualize_step_np1, if_neg hm]

theorem SolverU.step_R (s : SolverU) (n : ℕ) : (s.actualize_step_np1 n).2.R = s.R := by
  by_cases hm : isRowCalculated s.mask (n + 1) = false
  · rw [SolverU.step_eq_U hm]
  · rw [SolverU.actualize_step_np1, if_neg hm]

theorem RWF_method1_step {N M T : ℕ} {s : SolverR} (h : RWF N M T s) {n : ℕ}
    (hn : n ≤ T) : RWF N M T (SolverRMethod1.actualize_step_np1 s n).2 := by
  by_cases hm : isRowCalculated s.mask (n + 1) = false
  · rw [SolverRMethod1.step_eq_m1 hm]
    obtain ⟨h1, h2, h3, h4, h5, h6, h7, h8⟩ := h
    refine ⟨h1, h2, h3, h4, h5, gridWF_set h6 _ ?_, GWF_getRow h7 n,
      gridWF_setRowMod h8 _ _ (fun r => List.length_replicate ..)⟩
    rw [vAdd, List.length_zipWith, vMul, List.length_zipWith, vScalarSub,
      List.length_map, vSMul, List.length_map, vAdd, List.length_zipWith, vSMul,
      List.length_map, h1, h2, FunctionalG.getRow_length_G h7 n,
      gridWF_row h6 (show n < T + 1 by omega)]
    omega
  · rw [SolverRMethod1.actualize_step_np1, if_neg hm]
    exact h

theorem SolverRMethod1.step_u (s : SolverR) (n : ℕ) :
    (SolverRMethod1.actualize_step_np1 s n).2.u = s.u := by
  by_cases hm : isRowCalculated s.mask (n + 1) = false
  · rw [SolverRMethod1.step_eq_m1 hm]
  · rw [SolverRMethod1.actualize_step_np1, if_neg hm]

theorem SolverRMethod1.step_R_other (s : SolverR) (n : ℕ) {k : ℕ} (hk : k ≠ n + 1) :
    (SolverRMethod1.actualize_step_np1 s n).2.R.getD k [] = s.R.getD k [] := by
  by_cases hm : isRowCalculated s.mask (n + 1) = false
  · rw [SolverRMethod1.step_eq_m1 hm]
    exact getD_set_ne _ _ _ (Ne.symm hk)
  · rw [SolverRMethod1.actualize_step_np1, if_neg hm]

/-! One driver-loop iteration: success, well-formedness, and row bookkeeping. -/

theorem driver_iter_eq {rstep : RStep} {st : SolverU × SolverR} {n : ℕ}
    {u1 : SolverU} {r1 : SolverR}
    (h1 : st.1.actualize_row (st.2.R.getD n []) n = .ok u1)
    (h2 : st.2.actualize_row ((u1.actualize_step_np1 n).2.u.getD (n + 1) [])
      (n + 1) = .ok r1) :
    driver_iter rstep st n =
      .ok (((u1.actualize_step_np1 n).2, (rstep r1 n).2),
        [.uActRow n, .uStep n, .rActRow (n + 1), .rStep n]) := by
  rw [driver_iter, h1]
  simp only [bind, Except.bind]
  rw [h2]

theorem driver_iter_ok {N M T : ℕ} {st : SolverU × SolverR} (hU : UWF N M T st.1)
    (hR : RWF N M T st.2) {n : ℕ} (hn : n + 1 ≤ T) :
    ∃ st2 : SolverU × SolverR,
      driver_iter SolverRMethod1.actualize_step_np1 st n =
        .ok (st2, [.uActRow n, .uStep n, .rActRow (n + 1), .rStep n]) ∧
      UWF N M T st2.1 ∧ RWF N M T st2.2 ∧
      st2.1.R.getD n [] = st.2.R.getD n [] ∧
      (∀ k, k ≠ n → st2.1.R.getD k [] = st.1.R.getD k []) ∧
      st2.2.u.getD (n + 1) [] = st2.1.u.getD (n + 1) [] ∧
      (∀ k, k ≠ n + 1 → st2.2.u.getD k [] = st.2.u.getD k []) ∧
      (∀ k, k ≠ n + 1 → st2.1.u.getD k [] = st.1.u.getD k []) ∧
      (∀ k, k ≠ n + 1 → st2.2.R.getD k [] = st.2.R.getD k []) := by
  have hrow1 : (st.2.R.getD n []).length = M + 2 :=
    gridWF_row hR.2.2.2.2.2.1 (show n < T + 1 by omega)
  obtain ⟨u1, hu1eq, hu1WF, hu1Rn, hu1Rother, hu1u⟩ :
      ∃ u1, st.1.actualize_row (st.2.R.getD n []) n = .ok u1 ∧ UWF N M T u1 ∧
        u1.R.getD n [] = st.2.R.getD n [] ∧
        (∀ k, k ≠ n → u1.R.getD k [] = st.1.R.getD k []) ∧ u1.u = st.1.u := by
    refine ⟨_, SolverU.actualize_row_ok_U hU (by omega) hrow1,
      UWF_actualize_row hU (by omega) hrow1,
      getD_set_self _ _ _ (by rw [hU.2.2.2.2.2.1.1]; omega),
      fun k hk => getD_set_ne _ _ _ (Ne.symm hk), rfl⟩
  have hu2WF : UWF N M T (u1.actualize_step_np1 n).2 := UWF_step hu1WF n
  have hrow2 : ((u1.actualize_step_np1 n).2.u.getD (n + 1) []).length = N + 2 :=
    gridWF_row hu2WF.2.2.2.2.1 (Nat.lt_succ_of_le hn)
  obtain ⟨r1, hr1eq, hr1WF, hr1un1, hr1uother, hr1R⟩ :
      ∃ r1, st.2.actualize_row ((u1.actualize_step_np1 n).2.u.getD (n + 1) [])
          (n + 1) = .ok r1 ∧ RWF N M T r1 ∧
        r1.u.getD (n + 1) [] = (u1.actualize_step_np1 n).2.u.getD (n + 1) [] ∧
        (∀ k, k ≠ n + 1 → r1.u.getD k [] = st.2.u.getD k []) ∧ r1.R = st.2.R := by
    refine ⟨_, SolverR.actualize_row_ok_R hR hn hrow2,
      RWF_actualize_row hR hn hrow2,
      getD_set_self _ _ _ (by rw [hR.2.2.2.2.1.1]; exact Nat.lt_succ_of_le hn),
      fun k hk => getD_set_ne _ _ _ (Ne.symm hk), rfl⟩
  refine ⟨((u1.actualize_step_np1 n).2,
    (SolverRMethod1.actualize_step_np1 r1 n).2), driver_iter_eq hu1eq hr1eq, hu2WF,
    RWF_method1_step hr1WF (Nat.le_of_succ_le hn), ?_, ?_, ?_, ?_, ?_, ?_⟩
  · rw [SolverU.step_R]
    exact hu1Rn
  · intro k hk
    rw [SolverU.step_R]
    exact hu1Rother k hk
  · rw [SolverRMethod1.step_u]
    exact hr1un1
  · intro k hk
    rw [SolverRMethod1.step_u]
    exact hr1uother k hk
  · intro k hk
    rw [SolverU.step_u_other _ _ hk, hu1u]
  · intro k hk
    rw [SolverRMethod1.step_R_other _ _ hk, hr1R]

theorem driver_go_succ_eq {rstep : RStep} {st : SolverU × SolverR} {n k : ℕ}
    {st1 : SolverU × SolverR} {evs : List Event}
    (h1 : driver_iter rstep st n = .ok (st1, evs))
    {st2 : SolverU × SolverR} {evs2 : List Event}
    (h2 : driver_go rstep st1 (n + 1) k = .ok (st2, evs2)) :
    driver_go rstep st n (k + 1) = .ok (st2, evs ++ evs2) := by
  rw [driver_go, h1]
  simp only [bind, Except.bind]
  rw [h2]

theorem driver_go_ok {N M T : ℕ} :
    ∀ (k n : ℕ) (st : SolverU × SolverR), UWF N M T st.1 → RWF N M T st.2 →
      n + k ≤ T →
      ∃ st2 : SolverU × SolverR,
        driver_go SolverRMethod1.actualize_step_np1 st n k =
          .ok (st2, expected_trace n k) ∧
        UWF N M T st2.1 ∧ RWF N M T st2.2 ∧
        (∀ i, n ≤ i → i < n + k → st2.1.R.getD i [] = st2.2.R.getD i []) ∧
        (∀ j, n + 1 ≤ j → j ≤ n + k → st2.2.u.getD j [] = st2.1.u.getD j []) ∧
        (∀ i, i < n → st2.1.R.getD i [] = st.1.R.getD i []) ∧
        (∀ j, j ≤ n → st2.1.u.getD j [] = st.1.u.getD j []) ∧
        (∀ j, j ≤ n → st2.2.u.getD j [] = st.2.u.getD j []) ∧
        (∀ i, i ≤ n → st2.2.R.getD i [] = st.2.R.getD i []) := by
  intro k
  induction k with
  | zero =>
    intro n st hU hR hk
    exact ⟨st, rfl, hU, hR, fun i h1 h2 => absurd h2 (by omega),
      fun j h1 h2 => absurd (h1.trans h2) (by omega), fun i h => rfl,
      fun j h => rfl, fun j h => rfl, fun i h => rfl⟩
  | succ k ih =>
    intro n st hU hR hk
    have hk1 : n + 1 ≤ T := by omega
    have hk2 : n + 1 + k ≤ T := by omega
    obtain ⟨st1, hiter, hU1, hR1, hRn, hRother, hun1, huR2other, huU1other,
      hRR2other⟩ := driver_iter_ok hU hR hk1
    obtain ⟨st2, hgo, hU2, hR2, ha, hb, hc, hd, he, hf⟩ :=
      ih (n + 1) st1 hU1 hR1 hk2
    have heq2 : driver_go SolverRMethod1.actualize_step_np1 st n (k + 1) =
        .ok (st2, expected_trace n (k + 1)) := driver_go_succ_eq hiter hgo
    clear hiter hgo
    refine ⟨st2, heq2, hU2, hR2, ?_, ?_, ?_, ?_, ?_, ?_⟩
    · clear heq2
      intro i h1 h2
      by_cases hin : i = n
      · subst hin
        rw [hc i (by omega), hf i (by omega), hRn, hRR2other i (by omega)]
      · exact ha i (by omega) (by omega)
    · clear heq2
      intro j h1 h2
      by_cases hjn : j = n + 1
      · rw [hjn, he (n + 1) (by omega), hd (n + 1) (by omega), hun1]
      · exact hb j (by omega) (by omega)
    · clear heq2
      intro i h
      rw [hc i (by omega), hRother i (by omega)]
    · clear heq2
      intro j h
      rw [hd j (by omega), huU1other j (by omega)]
    · clear heq2
      intro j h
      rw [he j (by omega), huR2other j (by omega)]
    · clear heq2
      intro i h
      rw [hf i (by omega), hRR2other i (by omega)]

/-! Claim theorems. -/

/-- C1: for every functional (`F` part and `G` part) and indices `(n, j)` in range, an
evaluation whose mask entry is `False` computes the composite Simpson quadrature once
(counter `1`, value the Simpson integral of the integrand built from the dependency
row), stores the result in `matrix[n, j]`, sets `mask[n, j]` to `True`, and returns
the result; a subsequent evaluation at the same `(n, j)` — after any further
evaluations but with no intervening `actualize_row` on row `n` — returns the identical
cached value, performs no quadrature (counter `0`), and leaves the cache matrix and
mask unchanged (same state). -/
theorem claim1_memoization_idempotence :
    (∀ (N M T : ℕ) (f : FunctionalF) (n j : ℕ), FWF N M T f → n ≤ T → j ≤ N + 1 →
      maskAt f.mask n j = false →
      (f.call n j).1 = simpson (vMul (f.K.getD j []) (f.R.getD n [])) f.y ∧
      (f.call n j).2.2 = 1 ∧
      entry (f.call n j).2.1.matrix n j = (f.call n j).1 ∧
      maskAt (f.call n j).2.1.mask n j = true ∧
      ∀ ops : List (ℕ × ℕ),
        (((f.call n j).2.1.foldCalls ops).call n j).1 = (f.call n j).1 ∧
        (((f.call n j).2.1.foldCalls ops).call n j).2.1 =
          (f.call n j).2.1.foldCalls ops ∧
        (((f.call n j).2.1.foldCalls ops).call n j).2.2 = 0) ∧
    (∀ (N M T : ℕ) (g : FunctionalG) (n k : ℕ), GWF N M T g → n ≤ T → k ≤ M + 1 →
      maskAt g.mask n k = false →
      (g.call n k).1 = simpson (vMul (vMul g.r (colOf g.K k)) (g.u.getD n [])) g.x ∧
      (g.call n k).2.2 = 1 ∧
      entry (g.call n k).2.1.matrix n k = (g.call n k).1 ∧
      maskAt (g.call n k).2.1.mask n k = true ∧
      ∀ ops : List (ℕ × ℕ),
        (((g.call n k).2.1.foldCalls ops).call n k).1 = (g.call n k).1 ∧
        (((g.call n k).2.1.foldCalls ops).call n k).2.1 =
          (g.call n k).2.1.foldCalls ops ∧
        (((g.call n k).2.1.foldCalls ops).call n k).2.2 = 0) := by
  constructor
  · intro N M T f n j hWF hn hj hmask
    have hnmat : n < f.matrix.length := by rw [hWF.2.2.2.1.1]; omega
    have hjmat : j < (f.matrix.getD n []).length := by
      rw [gridWF_row hWF.2.2.2.1 (show n < T + 1 by omega)]; omega
    have hnmask : n < f.mask.length := by rw [hWF.2.2.2.2.1.1]; omega
    have hjmask : j < (f.mask.getD n []).length := by
      rw [gridWF_row hWF.2.2.2.2.1 (show n < T + 1 by omega)]; omega
    have hcall : f.call n j =
        (simpson (vMul (f.K.getD j []) (f.R.getD n [])) f.y,
          { f with
              matrix := setEntryM f.matrix n j
                (simpson (vMul (f.K.getD j []) (f.R.getD n [])) f.y),
              mask := setMask f.mask n j true }, 1) := by
      rw [FunctionalF.call, if_pos hmask]
    have hentry : entry (f.call n j).2.1.matrix n j = (f.call n j).1 := by
      rw [hcall, entry, setEntryM, getD_set_self _ _ _ hnmat, getD_set_self _ _ _ hjmat]
    have hmaskset : maskAt (f.call n j).2.1.mask n j = true := by
      rw [hcall, maskAt, setMask, getD_set_self _ _ _ hnmask,
        getD_set_self _ _ _ hjmask]
    refine ⟨by rw [hcall], by rw [hcall], hentry, hmaskset, fun ops => ?_⟩
    have hdone := FunctionalF.foldCalls_preserves_done_F hmaskset ops
    have hsecond : ((f.call n j).2.1.foldCalls ops).call n j =
        (entry ((f.call n j).2.1.foldCalls ops).matrix n j,
          (f.call n j).2.1.foldCalls ops, 0) := by
      rw [FunctionalF.call, if_neg (by rw [hdone.1]; simp)]
    exact ⟨by rw [hsecond]; exact hdone.2.trans hentry, by rw [hsecond], by rw [hsecond]⟩
  · intro N M T g n k hWF hn hk hmask
    have hnmat : n < g.matrix.length := by rw [hWF.2.2.2.2.1.1]; omega
    have hkmat : k < (g.matrix.getD n []).length := by
      rw [gridWF_row hWF.2.2.2.2.1 (show n < T + 1 by omega)]; omega
    have hnmask : n < g.mask.length := by rw [hWF.2.2.2.2.2.1.1]; omega
    have hkmask : k < (g.mask.getD n []).length := by
      rw [gridWF_row hWF.2.2.2.2.2.1 (show n < T + 1 by omega)]; omega
    have hcall : g.call n k =
        (simpson (vMul (vMul g.r (colOf g.K k)) (g.u.getD n [])) g.x,
          { g with
              matrix := setEntryM g.matrix n k
                (simpson (vMul (vMul g.r (colOf g.K k)) (g.u.getD n [])) g.x),
              mask := setMask g.mask n k true }, 1) := by
      rw [FunctionalG.call, if_pos hmask]
    have hentry : entry (g.call n k).2.1.matrix n k = (g.call n k).1 := by
      rw [hcall, entry, setEntryM, getD_set_self _ _ _ hnmat, getD_set_self _ _ _ hkmat]
    have hmaskset : maskAt (g.call n k).2.1.mask n k = true := by
      rw [hcall, maskAt, setMask, getD_set_self _ _ _ hnmask,
        getD_set_self _ _ _ hkmask]
    refine ⟨by rw [hcall], by rw [hcall], hentry, hmaskset, fun ops => ?_⟩
    have hdone := FunctionalG.foldCalls_preserves_done_G hmaskset ops
    have hsecond : ((g.call n k).2.1.foldCalls ops).call n k =
        (entry ((g.call n k).2.1.foldCalls ops).matrix n k,
          (g.call n k).2.1.foldCalls ops, 0) := by
      rw [FunctionalG.call, if_neg (by rw [hdone.1]; simp)]
    exact ⟨by rw [hsecond]; exact hdone.2.trans hentry, by rw [hsecond], by rw [hsecond]⟩

/-- Witness for C1 at the concrete states `exF` and `exG`: the first evaluation at
`(0, 0)` performs one quadrature, and a later evaluation at `(0, 0)` — after an
intervening evaluation at `(0, 1)` — performs none. -/
theorem claim1_witness :
    (FWF 0 0 1 exF ∧ maskAt exF.mask 0 0 = false ∧ (exF.call 0 0).2.2 = 1 ∧
      (((exF.call 0 0).2.1.foldCalls [(0, 1)]).call 0 0).2.2 = 0) ∧
    (GWF 0 0 1 exG ∧ maskAt exG.mask 0 0 = false ∧ (exG.call 0 0).2.2 = 1 ∧
      (((exG.call 0 0).2.1.foldCalls [(0, 1)]).call 0 0).2.2 = 0) := by
  have hF := claim1_memoization_idempotence.1 0 0 1 exF 0 0 (by decide) (by decide)
    (by decide) (by decide)
  have hG := claim1_memoization_idempotence.2 0 0 1 exG 0 0 (by decide) (by decide)
    (by decide) (by decide)
  exact ⟨⟨by decide, by decide, hF.2.1, (hF.2.2.2.2 [(0, 1)]).2.2⟩,
    ⟨by decide, by decide, hG.2.1, (hG.2.2.2.2 [(0, 1)]).2.2⟩⟩

/-- C2: for every functional (`F` part and `G` part), after a successful
`actualize_row(new_row, n)` every mask entry in cache-row `n` is `False`, the
functional's private copy of the dependency row `n` equals `new_row`, and the next
evaluation at `(n, j)`, for any column `j`, performs the quadrature again (counter
`1`) on the integrand built from `new_row` rather than returning a cached value. -/
theorem claim2_invalidation :
    (∀ (N M T : ℕ) (f : FunctionalF) (n : ℕ) (row : Vec), FWF N M T f → n ≤ T →
      row.length = M + 2 →
      ∃ f2, f.actualize_row row n = .ok f2 ∧
        (∀ j, maskAt f2.mask n j = false) ∧
        f2.R.getD n [] = row ∧
        ∀ j, (f2.call n j).1 = simpson (vMul (f.K.getD j []) row) f.y ∧
          (f2.call n j).2.2 = 1) ∧
    (∀ (N M T : ℕ) (g : FunctionalG) (n : ℕ) (row : Vec), GWF N M T g → n ≤ T →
      row.length = N + 2 →
      ∃ g2, g.actualize_row row n = .ok g2 ∧
        (∀ k, maskAt g2.mask n k = false) ∧
        g2.u.getD n [] = row ∧
        ∀ k, (g2.call n k).1 = simpson (vMul (vMul g.r (colOf g.K k)) row) g.x ∧
          (g2.call n k).2.2 = 1) := by
  constructor
  · intro N M T f n row hWF hn hrow
    have hnmask : n < f.mask.length := by rw [hWF.2.2.2.2.1.1]; omega
    have hnR : n < f.R.length := by rw [hWF.2.2.1.1]; omega
    refine ⟨_, FunctionalF.actualize_row_ok_F hWF hn hrow, ?_, ?_, ?_⟩
    · exact fun j => maskAt_updateMaskRow_false hnmask j
    · exact getD_set_self _ _ _ hnR
    · intro j
      have hm : maskAt (updateMaskRow f.mask n false) n j = false :=
        maskAt_updateMaskRow_false hnmask j
      have hcall :
          FunctionalF.call
              { f with R := f.R.set n row, mask := updateMaskRow f.mask n false } n j =
            (simpson (vMul (f.K.getD j []) ((f.R.set n row).getD n [])) f.y,
              { f with
                  R := f.R.set n row,
                  matrix := setEntryM f.matrix n j
                    (simpson (vMul (f.K.getD j []) ((f.R.set n row).getD n [])) f.y),
                  mask := setMask (updateMaskRow f.mask n false) n j true }, 1) := by
        rw [FunctionalF.call, if_pos hm]
      rw [hcall, getD_set_self _ _ _ hnR]
      exact ⟨rfl, rfl⟩
  · intro N M T g n row hWF hn hrow
    have hnmask : n < g.mask.length := by rw [hWF.2.2.2.2.2.1.1]; omega
    have hnu : n < g.u.length := by rw [hWF.2.2.2.1.1]; omega
    refine ⟨_, FunctionalG.actualize_row_ok_G hWF hn hrow, ?_, ?_, ?_⟩
    · exact fun k => maskAt_updateMaskRow_false hnmask k
    · exact getD_set_self _ _ _ hnu
    · intro k
      have hm : maskAt (updateMaskRow g.mask n false) n k = false :=
        maskAt_updateMaskRow_false hnmask k
      have hcall :
          FunctionalG.call
              { g with u := g.u.set n row, mask := updateMaskRow g.mask n false } n k =
            (simpson (vMul (vMul g.r (colOf g.K k)) ((g.u.set n row).getD n [])) g.x,
              { g with
                  u := g.u.set n row,
                  matrix := setEntryM g.matrix n k
                    (simpson (vMul (vMul g.r (colOf g.K k))
                      ((g.u.set n row).getD n [])) g.x),
                  mask := setMask (updateMaskRow g.mask n false) n k true }, 1) := by
        rw [FunctionalG.call, if_pos hm]
      rw [hcall, getD_set_self _ _ _ hnu]
      exact ⟨rfl, rfl⟩

/-- Witness for C2 at the concrete states `exF` and `exG`: actualizing row `1` with
`[2, 3]` succeeds, and the listed consequences hold at column `0`. -/
theorem claim2_witness :
    (FWF 0 0 1 exF ∧ ∃ f2, exF.actualize_row [2, 3] 1 = .ok f2 ∧
      maskAt f2.mask 1 0 = false ∧ f2.R.getD 1 [] = [2, 3] ∧
      (f2.call 1 0).1 = simpson (vMul (exF.K.getD 0 []) [2, 3]) exF.y ∧
      (f2.call 1 0).2.2 = 1) ∧
    (GWF 0 0 1 exG ∧ ∃ g2, exG.actualize_row [2, 3] 1 = .ok g2 ∧
      maskAt g2.mask 1 0 = false ∧ g2.u.getD 1 [] = [2, 3] ∧
      (g2.call 1 0).1 = simpson (vMul (vMul exG.r (colOf exG.K 0)) [2, 3]) exG.x ∧
      (g2.call 1 0).2.2 = 1) := by
  have hF := claim2_invalidation.1 0 0 1 exF 1 [2, 3] (by decide) (by decide) (by decide)
  have hG := claim2_invalidation.2 0 0 1 exG 1 [2, 3] (by decide) (by decide) (by decide)
  obtain ⟨f2, hok, hmask, hR, hcalls⟩ := hF
  obtain ⟨g2, gok, gmask, gu, gcalls⟩ := hG
  exact ⟨⟨by decide, f2, hok, hmask 0, hR, (hcalls 0).1, (hcalls 0).2⟩,
    ⟨by decide, g2, gok, gmask 0, gu, (gcalls 0).1, (gcalls 0).2⟩⟩

/-- C8: for every functional and every solver (under well-formed state and a time
index in range), `actualize_row(row, n)` fails with a ShapeMismatch error iff the
length of `row` differs from the expected mesh dimension of the row it updates:
`M + 2` for `FunctionalF` and for the resource row given to `SolverU`, `N + 2` for
`FunctionalG` and for the population row given to `SolverR`.  In the embedding the
validation is the first statement of each method (as in the source), so an error
returns the input state unmodified: no field copy, cache matrix or mask is changed. -/
theorem claim8_shape_mismatch :
    (∀ (N M T : ℕ) (f : FunctionalF) (n : ℕ) (row : Vec), FWF N M T f → n ≤ T →
      (f.actualize_row row n = .error .shapeMismatch ↔ row.length ≠ M + 2)) ∧
    (∀ (N M T : ℕ) (g : FunctionalG) (n : ℕ) (row : Vec), GWF N M T g → n ≤ T →
      (g.actualize_row row n = .error .shapeMismatch ↔ row.length ≠ N + 2)) ∧
    (∀ (N M T : ℕ) (s : SolverU) (n : ℕ) (row : Vec), UWF N M T s → n ≤ T →
      (s.actualize_row row n = .error .shapeMismatch ↔ row.length ≠ M + 2)) ∧
    (∀ (N M T : ℕ) (s : SolverR) (n : ℕ) (row : Vec), RWF N M T s → n ≤ T →
      (s.actualize_row row n = .error .shapeMismatch ↔ row.length ≠ N + 2)) := by
  refine ⟨fun N M T f n row hWF hn => ⟨fun herr hlen => ?_, fun hlen => ?_⟩,
    fun N M T g n row hWF hn => ⟨fun herr hlen => ?_, fun hlen => ?_⟩,
    fun N M T s n row hWF hn => ⟨fun herr hlen => ?_, fun hlen => ?_⟩,
    fun N M T s n row hWF hn => ⟨fun herr hlen => ?_, fun hlen => ?_⟩⟩
  · rw [FunctionalF.actualize_row_ok_F hWF hn hlen] at herr
    cases herr
  · exact FunctionalF.actualize_row_error_F
      (by rw [gridWF_row hWF.2.2.1 (show n < T + 1 by omega)]; exact hlen)
  · rw [FunctionalG.actualize_row_ok_G hWF hn hlen] at herr
    cases herr
  · exact FunctionalG.actualize_row_error_G
      (by rw [gridWF_row hWF.2.2.2.1 (show n < T + 1 by omega)]; exact hlen)
  · rw [SolverU.actualize_row_ok_U hWF hn hlen] at herr
    cases herr
  · exact SolverU.actualize_row_error_U hWF hn hlen
  · rw [SolverR.actualize_row_ok_R hWF hn hlen] at herr
    cases herr
  · exact SolverR.actualize_row_error_R hWF hn hlen

/-- Witness for C8: a length-3 row raises ShapeMismatch on the four small concrete
states (expected dimensions are 2), and a length-2 row does not raise. -/
theorem claim8_witness :
    (exF.actualize_row [1, 2, 3] 0 = .error .shapeMismatch ∧
      ¬exF.actualize_row [1, 2] 0 = .error .shapeMismatch) ∧
    (exG.actualize_row [1, 2, 3] 0 = .error .shapeMismatch ∧
      ¬exG.actualize_row [1, 2] 0 = .error .shapeMismatch) ∧
    (exU.actualize_row [1, 2, 3] 0 = .error .shapeMismatch ∧
      ¬exU.actualize_row [1, 2] 0 = .error .shapeMismatch) ∧
    (exR.actualize_row [1, 2, 3] 0 = .error .shapeMismatch ∧
      ¬exR.actualize_row [1, 2] 0 = .error .shapeMismatch) := by
  refine ⟨⟨(claim8_shape_mismatch.1 0 0 1 exF 0 [1, 2, 3] (by decide) (by decide)).mpr
      (by decide), fun hc => ?_⟩,
    ⟨(claim8_shape_mismatch.2.1 0 0 1 exG 0 [1, 2, 3] (by decide) (by decide)).mpr
      (by decide), fun hc => ?_⟩,
    ⟨(claim8_shape_mismatch.2.2.1 0 0 1 exU 0 [1, 2, 3] (by decide) (by decide)).mpr
      (by decide), fun hc => ?_⟩,
    ⟨(claim8_shape_mismatch.2.2.2 0 0 1 exR 0 [1, 2, 3] (by decide) (by decide)).mpr
      (by decide), fun hc => ?_⟩⟩
  · exact (claim8_shape_mismatch.1 0 0 1 exF 0 [1, 2] (by decide) (by decide)).mp hc
      (by decide)
  · exact (claim8_shape_mismatch.2.1 0 0 1 exG 0 [1, 2] (by decide) (by decide)).mp hc
      (by decide)
  · exact (claim8_shape_mismatch.2.2.1 0 0 1 exU 0 [1, 2] (by decide) (by decide)).mp hc
      (by decide)
  · exact (claim8_shape_mismatch.2.2.2 0 0 1 exR 0 [1, 2] (by decide) (by decide)).mp hc
      (by decide)

/-- Counterexample for C9: at the concrete state `exU`, `actualize_step_np1 0`
computes the previously uncomputed row `1` (its mask row flips from not-all-`True`
to all-`True`), yet `current_step` stays `0` instead of increasing by exactly `1`:
the source defines `_update_step` but never invokes it. -/
theorem claim9_counterexample :
    isRowCalculated exU.mask 1 = false ∧
    isRowCalculated (exU.actualize_step_np1 0).2.mask 1 = true ∧
    exU.current_step = 0 ∧
    (exU.actualize_step_np1 0).2.current_step ≠ exU.current_step + 1 := by
  decide

/-- C9 amended: `current_step` never changes under any of the program's operations —
a successful `actualize_row` and every `actualize_step_np1` (whether or not it
computes a new row) leave it exactly equal to its previous value, so it never
decreases; but a successful `actualize_step_np1` that computes a new row does not
increase it either (the source's `_update_step`, which would set it, is never
called). -/
theorem claim9_amended_current_step_constant :
    (∀ (s : SolverU) (row : Vec) (n : ℕ) (s2 : SolverU),
      s.actualize_row row n = .ok s2 → s2.current_step = s.current_step) ∧
    (∀ (s : SolverU) (n : ℕ),
      (s.actualize_step_np1 n).2.current_step = s.current_step) ∧
    (∀ (s : SolverR) (row : Vec) (n : ℕ) (s2 : SolverR),
      s.actualize_row row n = .ok s2 → s2.current_step = s.current_step) ∧
    (∀ (s : SolverR) (n : ℕ),
      (SolverRMethod1.actualize_step_np1 s n).2.current_step = s.current_step) ∧
    (∀ (s : SolverR) (n : ℕ),
      (SolverRMethod2.actualize_step_np1 s n).2.current_step = s.current_step) := by
  refine ⟨fun s row n s2 h => ?_, fun s n => ?_, fun s row n s2 h => ?_,
    fun s n => ?_, fun s n => ?_⟩
  · by_cases hv : row.length = (s.R.getD n []).length
    · by_cases hf : row.length = (s.F.R.getD n []).length
      · rw [SolverU.actualize_row, validate_nth_row, if_pos hv,
          FunctionalF.actualize_row, validate_nth_row, if_pos hf] at h
        simp only [bind, Except.bind] at h
        injection h with h
        rw [← h]
      · rw [SolverU.actualize_row, validate_nth_row, if_pos hv,
          FunctionalF.actualize_row, validate_nth_row, if_neg hf] at h
        simp only [bind, Except.bind] at h
        cases h
    · rw [SolverU.actualize_row, validate_nth_row, if_neg hv] at h
      simp only [bind, Except.bind] at h
      cases h
  · rw [SolverU.actualize_step_np1]
    split <;> rfl
  · by_cases hv : row.length = (s.u.getD n []).length
    · by_cases hf : row.length = (s.G.u.getD n []).length
      · rw [SolverR.actualize_row, validate_nth_row, if_pos hv,
          FunctionalG.actualize_row, validate_nth_row, if_pos hf] at h
        simp only [bind, Except.bind] at h
        injection h with h
        rw [← h]
      · rw [SolverR.actualize_row, validate_nth_row, if_pos hv,
          FunctionalG.actualize_row, validate_nth_row, if_neg hf] at h
        simp only [bind, Except.bind] at h
        cases h
    · rw [SolverR.actualize_row, validate_nth_row, if_neg hv] at h
      simp only [bind, Except.bind] at h
      cases h
  · rw [SolverRMethod1.actualize_step_np1]
    split <;> rfl
  · rw [SolverRMethod2.actualize_step_np1]
    split <;> rfl

/-- Witness for C9 amended: the concrete row actualizations on `exU` and `exR`
succeed and leave `current_step` unchanged. -/
theorem claim9_amended_witness :
    exU.actualize_row [5, 5] 0 = .ok exU_after ∧
    exU_after.current_step = exU.current_step ∧
    exR.actualize_row [5, 5] 0 = .ok exR_after ∧
    exR_after.current_step = exR.current_step := by
  refine ⟨by decide, claim9_amended_current_step_constant.1 exU [5, 5] 0 exU_after
    (by decide), by decide, claim9_amended_current_step_constant.2.2.1 exR [5, 5] 0
    exR_after (by decide)⟩

/-- C4: when row `n + 1` of `u` is not yet marked computed, `actualize_step_np1(n)`
sets `u[n+1]` to the matrix-vector product of the transition operator with `u[n]`,
where the operator is exactly as the claim describes it entrywise
(`transition_matrix_claim` with `alpha = eps * dt / h1 ^ 2` and the vector of
functional `F` values at time row `n`); the other `u` rows are untouched, row `n + 1`
is then marked computed, and the computed row is returned. -/
theorem claim4_solver_u_step :
    ∀ (N M T : ℕ) (s : SolverU) (n : ℕ), UWF N M T s → n + 1 ≤ T →
      isRowCalculated s.mask (n + 1) = false →
      (∀ i, i ≤ N + 1 →
        ((s.actualize_step_np1 n).2.u.getD (n + 1) []).getD i 0 =
          ((List.range (N + 2)).map (fun j =>
            transition_matrix_claim (s.eps * s.dt / s.h1 ^ 2) s.dt s.m_1 s.r
                (s.F.getRow n).1 N i j *
              (s.u.getD n []).getD j 0)).sum) ∧
      (∀ k, k ≠ n + 1 → (s.actualize_step_np1 n).2.u.getD k [] = s.u.getD k []) ∧
      isRowCalculated (s.actualize_step_np1 n).2.mask (n + 1) = true ∧
      (s.actualize_step_np1 n).1 = (s.actualize_step_np1 n).2.u.getD (n + 1) [] := by
  intro N M T s n hWF hT hmask
  have hstep := SolverU.step_eq_U hmask
  have hulen : n + 1 < s.u.length := by rw [hWF.2.2.2.2.1.1]; omega
  have hmasklen : n + 1 < s.mask.length := by rw [hWF.2.2.2.2.2.2.2.1]; omega
  refine ⟨?_, ?_, ?_, ?_⟩
  · intro i hi
    rw [hstep]
    show ((s.u.set (n + 1) _).getD (n + 1) []).getD i 0 = _
    rw [getD_set_self _ _ _ hulen, dot, hWF.1,
      getD_map _ _ _ (by rw [List.length_range]; omega), List.getElem_range]
    refine congrArg List.sum (List.map_congr_left fun j hj => ?_)
    have hj2 : j ≤ N + 1 := by have := List.mem_range.mp hj; omega
    rw [create_transition_matrix_entry hWF n hi hj2]
  · intro k hk
    rw [hstep]
    exact getD_set_ne _ _ _ (Ne.symm hk)
  · rw [hstep]
    exact isRowCalculated_updateMaskRow_true hmasklen
  · rw [hstep]

/-- Witness for C4 at the concrete state `exU` and step `0`: the entry formula, the
untouched row `0`, the mask marking, and the returned row. -/
theorem claim4_witness :
    UWF 0 0 1 exU ∧ isRowCalculated exU.mask 1 = false ∧
    ((exU.actualize_step_np1 0).2.u.getD 1 []).getD 0 0 =
      ((List.range 2).map (fun j =>
        transition_matrix_claim (exU.eps * exU.dt / exU.h1 ^ 2) exU.dt exU.m_1 exU.r
            (exU.F.getRow 0).1 0 0 j *
          (exU.u.getD 0 []).getD j 0)).sum ∧
    (exU.actualize_step_np1 0).2.u.getD 0 [] = exU.u.getD 0 [] ∧
    isRowCalculated (exU.actualize_step_np1 0).2.mask 1 = true ∧
    (exU.actualize_step_np1 0).1 = (exU.actualize_step_np1 0).2.u.getD 1 [] := by
  have h := claim4_solver_u_step 0 0 1 exU 0 (by decide) (by decide) (by decide)
  exact ⟨by decide, by decide, h.1 0 (by decide), h.2.1 0 (by decide), h.2.2.1,
    h.2.2.2⟩

/-- C5: when row `n + 1` of `R` is not yet marked computed,
`SolverRMethod1.actualize_step_np1(n)` sets, componentwise over the `M + 2` resource
points, `R[n+1] = (1 - dt * (m_2 + G[n])) * R[n] + dt * R_in` with `G[n]` the vector
of functional `G` values at time row `n`; the other `R` rows are untouched, row
`n + 1` is then marked computed, and the computed row is returned. -/
theorem claim5_solver_r_method1_step :
    ∀ (N M T : ℕ) (s : SolverR) (n : ℕ), RWF N M T s → n + 1 ≤ T →
      isRowCalculated s.mask (n + 1) = false →
      (∀ j, j ≤ M + 1 →
        ((SolverRMethod1.actualize_step_np1 s n).2.R.getD (n + 1) []).getD j 0 =
          (1 - s.dt * (s.m_2.getD j 0 + (s.G.getRow n).1.getD j 0)) *
              (s.R.getD n []).getD j 0 +
            s.dt * s.R_in.getD j 0) ∧
      (∀ k, k ≠ n + 1 →
        (SolverRMethod1.actualize_step_np1 s n).2.R.getD k [] = s.R.getD k []) ∧
      isRowCalculated (SolverRMethod1.actualize_step_np1 s n).2.mask (n + 1) = true ∧
      (SolverRMethod1.actualize_step_np1 s n).1 =
        (SolverRMethod1.actualize_step_np1 s n).2.R.getD (n + 1) [] := by
  intro N M T s n hWF hT hmask
  have hmasklen : n + 1 < s.mask.length := by rw [hWF.2.2.2.2.2.2.2.1]; omega
  refine ⟨fun j hj => SolverRMethod1.step_entry_m1 hWF hT hmask hj, fun k hk => ?_, ?_, ?_⟩
  · rw [SolverRMethod1.step_eq_m1 hmask]
    exact getD_set_ne _ _ _ (Ne.symm hk)
  · rw [SolverRMethod1.step_eq_m1 hmask]
    exact isRowCalculated_updateMaskRow_true hmasklen
  · rw [SolverRMethod1.step_eq_m1 hmask]

/-- Witness for C5 at the concrete state `exR` and step `0`. -/
theorem claim5_witness :
    RWF 0 0 1 exR ∧ isRowCalculated exR.mask 1 = false ∧
    ((SolverRMethod1.actualize_step_np1 exR 0).2.R.getD 1 []).getD 0 0 =
      (1 - exR.dt * (exR.m_2.getD 0 0 + (exR.G.getRow 0).1.getD 0 0)) *
          (exR.R.getD 0 []).getD 0 0 +
        exR.dt * exR.R_in.getD 0 0 ∧
    (SolverRMethod1.actualize_step_np1 exR 0).2.R.getD 0 [] = exR.R.getD 0 [] ∧
    isRowCalculated (SolverRMethod1.actualize_step_np1 exR 0).2.mask 1 = true := by
  have h := claim5_solver_r_method1_step 0 0 1 exR 0 (by decide) (by decide) (by decide)
  exact ⟨by decide, by decide, h.1 0 (by decide), h.2.1 0 (by decide), h.2.2.1⟩

/-- C6: when row `n + 1` of `R` is not yet marked computed,
`SolverRMethod2.actualize_step_np1(n)` sets, componentwise over the `M + 2` resource
points, `R[n+1] = R_in / (m_2 + G[n+1])` with `G[n+1]` the vector of functional `G`
values evaluated one step ahead at time row `n + 1`; the other `R` rows are
untouched, row `n + 1` is then marked computed, and the computed row is returned. -/
theorem claim6_solver_r_method2_step :
    ∀ (N M T : ℕ) (s : SolverR) (n : ℕ), RWF N M T s → n + 1 ≤ T →
      isRowCalculated s.mask (n + 1) = false →
      (∀ j, j ≤ M + 1 →
        ((SolverRMethod2.actualize_step_np1 s n).2.R.getD (n + 1) []).getD j 0 =
          s.R_in.getD j 0 / (s.m_2.getD j 0 + (s.G.getRow (n + 1)).1.getD j 0)) ∧
      (∀ k, k ≠ n + 1 →
        (SolverRMethod2.actualize_step_np1 s n).2.R.getD k [] = s.R.getD k []) ∧
      isRowCalculated (SolverRMethod2.actualize_step_np1 s n).2.mask (n + 1) = true ∧
      (SolverRMethod2.actualize_step_np1 s n).1 =
        (SolverRMethod2.actualize_step_np1 s n).2.R.getD (n + 1) [] := by
  intro N M T s n hWF hT hmask
  have hmasklen : n + 1 < s.mask.length := by rw [hWF.2.2.2.2.2.2.2.1]; omega
  refine ⟨fun j hj => SolverRMethod2.step_entry_m2 hWF hT hmask hj, fun k hk => ?_, ?_, ?_⟩
  · rw [SolverRMethod2.step_eq_m2 hmask]
    exact getD_set_ne _ _ _ (Ne.symm hk)
  · rw [SolverRMethod2.step_eq_m2 hmask]
    exact isRowCalculated_updateMaskRow_true hmasklen
  · rw [SolverRMethod2.step_eq_m2 hmask]

/-- Witness for C6 at the concrete state `exR` and step `0`. -/
theorem claim6_witness :
    RWF 0 0 1 exR ∧ isRowCalculated exR.mask 1 = false ∧
    ((SolverRMethod2.actualize_step_np1 exR 0).2.R.getD 1 []).getD 0 0 =
      exR.R_in.getD 0 0 / (exR.m_2.getD 0 0 + (exR.G.getRow 1).1.getD 0 0) ∧
    (SolverRMethod2.actualize_step_np1 exR 0).2.R.getD 0 [] = exR.R.getD 0 [] ∧
    isRowCalculated (SolverRMethod2.actualize_step_np1 exR 0).2.mask 1 = true := by
  have h := claim6_solver_r_method2_step 0 0 1 exR 0 (by decide) (by decide) (by decide)
  exact ⟨by decide, by decide, h.1 0 (by decide), h.2.1 0 (by decide), h.2.2.1⟩

/-- Counterexample for C7: at the concrete well-formed state `cexR`, every component
of `R_in` and of `m_2` is strictly positive, the row `1` of `R` is not yet computed,
and yet `SolverRMethod2.actualize_step_np1(0)` produces a strictly negative first
component of `R[1]` (the functional `G` at row `1` evaluates to `-100`, so
`m_2 + G[1] = -99 < 0`). -/
theorem claim7_counterexample :
    (∀ q ∈ cexR.R_in, 0 < q) ∧ (∀ q ∈ cexR.m_2, 0 < q) ∧
    isRowCalculated cexR.mask 1 = false ∧
    ((SolverRMethod2.actualize_step_np1 cexR 0).2.R.getD 1 []).getD 0 0 < 0 := by
  refine ⟨by decide, by decide, by decide, ?_⟩
  rw [@SolverRMethod2.step_entry_m2 1 0 1 cexR (by decide) 0 (by decide) (by decide) 0
    (by decide)]
  have hG : (cexR.G.getRow 1).1.getD 0 0 = (cexR.G.call 1 0).1 := rfl
  rw [hG, FunctionalG.call, if_pos (by decide : maskAt cexR.G.mask 1 0 = false)]
  norm_num [cexR, vMul, colOf, simpson, simpsonAux]

/-- C7 amended: for `SolverRMethod2`, when row `n + 1` is not yet computed, if every
component of `R_in` and of `m_2` is strictly positive and additionally every
component of the functional vector `G[n+1]` is non-negative, then every component of
the produced row `R[n+1]` is non-negative. -/
theorem claim7_amended_nonnegative :
    ∀ (N M T : ℕ) (s : SolverR) (n : ℕ), RWF N M T s → n + 1 ≤ T →
      isRowCalculated s.mask (n + 1) = false →
      (∀ q ∈ s.R_in, 0 < q) → (∀ q ∈ s.m_2, 0 < q) →
      (∀ j, j ≤ M + 1 → 0 ≤ (s.G.getRow (n + 1)).1.getD j 0) →
      ∀ j, j ≤ M + 1 →
        0 ≤ ((SolverRMethod2.actualize_step_np1 s n).2.R.getD (n + 1) []).getD j 0 := by
  intro N M T s n hWF hT hmask hRin hm2 hG j hj
  rw [SolverRMethod2.step_entry_m2 hWF hT hmask hj]
  have hRinlen : j < s.R_in.length := by rw [hWF.2.1]; omega
  have hm2len : j < s.m_2.length := by rw [hWF.1]; omega
  have h1 : 0 < s.R_in.getD j 0 := by
    rw [List.getD_eq_getElem _ _ hRinlen]
    exact hRin _ (List.getElem_mem hRinlen)
  have h2 : 0 < s.m_2.getD j 0 := by
    rw [List.getD_eq_getElem _ _ hm2len]
    exact hm2 _ (List.getElem_mem hm2len)
  exact div_nonneg h1.le (by have := hG j hj; linarith)

/-- Witness for C7 amended at the concrete state `exR` (everything positive, `G[1]`
evaluating to `0`). -/
theorem claim7_amended_witness :
    RWF 0 0 1 exR ∧ (∀ q ∈ exR.R_in, 0 < q) ∧ (∀ q ∈ exR.m_2, 0 < q) ∧
    0 ≤ (exR.G.getRow 1).1.getD 0 0 ∧
    0 ≤ ((SolverRMethod2.actualize_step_np1 exR 0).2.R.getD 1 []).getD 0 0 := by
  refine ⟨by decide, by decide, by decide, by decide, ?_⟩
  exact claim7_amended_nonnegative 0 0 1 exR 0 (by decide) (by decide) (by decide)
    (by decide) (by decide) (by decide) 0 (by decide)

/-- C10: every call to `solve_perthame` that leaves `y_lims` as `None` (its declared
default) or `M` as `None` (its declared default) raises a `TypeError` while
constructing the meshes (line 38 unpacks `y_lims` into `np.linspace` and adds `2` to
`M`), before sampling proceeds and before any solver object is constructed — the
whole call returns the error, so no fallback to `y_lims = x_lims` or `M = N` ever
happens at this entry point. -/
theorem claim10_none_defaults_type_error :
    ∀ (u_0 R_0 r R_in m_1 m_2 : ℚ → ℚ) (K : ℚ → ℚ → ℚ) (eps : ℚ) (rstep : RStep)
      (x_lims : ℚ × ℚ) (y_lims : Option (ℚ × ℚ)) (N : ℕ) (M : Option ℕ) (dt : ℚ)
      (T : Option ℕ), y_lims = none ∨ M = none →
      solve_perthame u_0 R_0 r R_in m_1 m_2 K eps rstep x_lims y_lims N M dt T =
        .error .typeError := by
  intro u_0 R_0 r R_in m_1 m_2 K eps rstep x_lims y_lims N M dt T h
  rcases h with h | h
  · subst h
    rfl
  · subst h
    cases y_lims with
    | none => rfl
    | some yl => rfl

/-- Witness for C10: two concrete calls, one with `y_lims = none` and one with
`M = none`, both returning `TypeError`. -/
theorem claim10_witness :
    solve_perthame (fun q => q) (fun q => q) (fun q => q) (fun q => q) (fun q => q)
        (fun q => q) (fun a b => a * b) 0 SolverRMethod1.actualize_step_np1 (0, 1)
        none 3 (some 4) 1 (some 5) = .error .typeError ∧
    solve_perthame (fun q => q) (fun q => q) (fun q => q) (fun q => q) (fun q => q)
        (fun q => q) (fun a b => a * b) 0 SolverRMethod1.actualize_step_np1 (0, 1)
        (some (0, 1)) 3 none 1 (some 5) = .error .typeError :=
  ⟨claim10_none_defaults_type_error (fun q => q) (fun q => q) (fun q => q)
      (fun q => q) (fun q => q) (fun q => q) (fun a b => a * b) 0
      SolverRMethod1.actualize_step_np1 (0, 1) none 3 (some 4) 1 (some 5)
      (Or.inl rfl),
    claim10_none_defaults_type_error (fun q => q) (fun q => q) (fun q => q)
      (fun q => q) (fun q => q) (fun q => q) (fun a b => a * b) 0
      SolverRMethod1.actualize_step_np1 (0, 1) (some (0, 1)) 3 none 1 (some 5)
      (Or.inr rfl)⟩

/-- C3: for well-formed solver states and `T0 ≤ T` steps, the driver loop of
`solve_perthame` succeeds and its call trace is exactly, for each `n = 0 .. T0-1` in
order, `u.actualize_row(R[n], n)`, `u.actualize_step_np1(n)`,
`R.actualize_row(u[n+1], n+1)`, `R.actualize_step_np1(n)` — the four calls in this
order and no others (`expected_trace 0 T0`, and each iteration of `driver_iter`
emits exactly its four events).  Consequently the rows are exchanged as the claim
says: afterwards, `u`'s private copy of resource row `n` (for every `n < T0`) is the
resource solver's row `n` it was derived from, and the resource solver's private
copy of population row `j` (for every `1 ≤ j ≤ T0`) equals the population row
`u[j]` that `u.actualize_step_np1` had just derived. -/
theorem claim3_driver_leapfrog :
    ∀ (N M T T0 : ℕ) (st : SolverU × SolverR), UWF N M T st.1 → RWF N M T st.2 →
      T0 ≤ T →
      ∃ st2 : SolverU × SolverR,
        driver_loop SolverRMethod1.actualize_step_np1 T0 st =
          .ok (st2, expected_trace 0 T0) ∧
        (∀ n, n < T0 → st2.1.R.getD n [] = st2.2.R.getD n []) ∧
        (∀ j, 1 ≤ j → j ≤ T0 → st2.2.u.getD j [] = st2.1.u.getD j []) := by
  intro N M T T0 st hU hR hT
  obtain ⟨st2, heq, hU2, hR2, ha, hb, hc, hd, he, hf⟩ :=
    driver_go_ok T0 0 st hU hR (by omega)
  exact ⟨st2, heq, fun n h => ha n (by omega) (by omega),
    fun j h1 h2 => hb j (by omega) (by omega)⟩

/-- Witness for C3: one full loop iteration on the concrete pair `(exU, exR)`
produces exactly the expected four-event trace. -/
theorem claim3_witness :
    UWF 0 0 1 exU ∧ RWF 0 0 1 exR ∧
    (driver_loop SolverRMethod1.actualize_step_np1 1 (exU, exR)).toOption.map
        Prod.snd = some (expected_trace 0 1) := by
  refine ⟨by decide, by decide, ?_⟩
  obtain ⟨st2, heq, h1, h2⟩ := claim3_driver_leapfrog 0 0 1 1 (exU, exR) (by decide)
    (by decide) (by decide)
  rw [heq]
  rfl

end Perthame
